import Mathlib

/-!
Verification of the Gramps LaTeX document-generator backend
(`gramps/plugins/docgen/latexdoc.py` and `latexbasedoc.py`).

The Python source is shallowly embedded below:
* pure helper functions (`get_charform`, `get_numform`, `str_incr`,
  `latexescape`) become Lean functions; a Python exception is modelled
  as `Option.none` (or a `Bool` success flag when output written before
  the exception matters);
* the table buffer (`TabCell`/`TabRow`/`TabMem`) becomes structures;
* every `self._backend.write(...)` of the table machinery is modelled
  as one element of a `List Instr`, a typed instruction mirroring the
  written macro invocation together with its variable payloads;
* the LaTeX macros of `_LATEX_TEMPLATE` (`\grinittab`,
  `\grcolsfirstfix` .. `\grcolsfourthfix`, `\grdividelength`, ...) are
  given an exact-arithmetic semantics over `ℚ` (`TexState`/`texStep`),
  with the engine's text measurement supplied by an oracle
  `measure : String → ℚ`.
-/

namespace Gramps

/-- `SEPARATION_PAT` from latexdoc.py. -/
def SEPARATION_PAT : String := "&&"

/-- `get_charform(col_num)` from latexdoc.py: maps a column number to a
column character.  Raises `ValueError` (modelled as `none`) when
`col_num > ord('z') - ord('a') = 25`; otherwise returns
`chr(ord('a') + col_num)`, which (for negative arguments smaller than
`-97`, where Python's `chr` itself raises) is also `none`. -/
def get_charform (col_num : ℤ) : Option Char :=
  if col_num > 25 then none
  else if 0 ≤ 97 + col_num then some (Char.ofNat (97 + col_num).toNat)
  else none

/-- `get_numform(col_char)` from latexdoc.py: `ord(col_char) - ord('a')`. -/
def get_numform (col_char : Char) : ℤ :=
  (col_char.toNat : ℤ) - 97

/-- Column index used for register lookup in the TeX semantics. -/
def colIdx (c : Char) : ℕ := (get_numform c).toNat

/-- `MULTCOL_COUNT_BASE` from latexdoc.py (as a character list). -/
def MULTCOL_COUNT_BASE : List Char := ['a', 'a', 'a']

/-- One step of the increment loop of `str_incr`: scan digits from the
rightmost (here: the head of the reversed digit list); a digit below
`'z'` is bumped by one, a `'z'` is reset to `'a'` with carry. -/
def incrRev : List Char → List Char
  | [] => []
  | c :: r => if c < 'z' then Char.ofNat (c.toNat + 1) :: r else 'a' :: incrRev r

/-- The in-place increment performed by `str_incr` on `lili`. -/
def str_incr_once (l : List Char) : List Char :=
  (incrRev l.reverse).reverse

/-- The `n`-th value yielded by the generator `str_incr(base)`:
the generator first yields the current string, then raises `ValueError`
(modelled as `none`) if it is all `'z'`, else increments. -/
def strIncrNth (base : List Char) : ℕ → Option (List Char)
  | 0 => some base
  | n + 1 =>
    match strIncrNth base n with
    | none => none
    | some l =>
      if l = List.replicate l.length 'z' then none else some (str_incr_once l)

/-- A lower-case letter, the digit alphabet of `str_incr`. -/
def lcLetter (c : Char) : Prop := 'a' ≤ c ∧ c ≤ 'z'

instance (c : Char) : Decidable (lcLetter c) := by
  unfold lcLetter; infer_instance

/-- Base-26 value of a reversed (little-endian) digit list. -/
def valRev : List Char → ℕ
  | [] => 0
  | c :: r => (c.toNat - 97) + 26 * valRev r

/-- Base-26 value of a digit string such as `'aaa'` (big-endian). -/
def strVal (l : List Char) : ℕ := valRev l.reverse

-- ------------------------------------------------------------------
-- Escaping utilities (latexbasedoc.py)
-- ------------------------------------------------------------------

/-- List-of-characters prefix test (used to locate pattern occurrences
for Python's `str.replace`). -/
def startsWithL : List Char → List Char → Bool
  | [], _ => true
  | _ :: _, [] => false
  | p :: ps, c :: cs => p == c && startsWithL ps cs

/-- Python `str.replace(pat, repl)` on character lists: leftmost,
non-overlapping replacement of every occurrence.  The fuel argument
(initialised to the length of the list, an upper bound on the number of
steps) only serves to make the recursion structural. -/
def pyReplaceGo (pat repl : List Char) : ℕ → List Char → List Char
  | _, [] => []
  | 0, rest => rest
  | n + 1, c :: rest =>
    if pat ≠ [] ∧ startsWithL pat (c :: rest) = true then
      repl ++ pyReplaceGo pat repl n ((c :: rest).drop pat.length)
    else c :: pyReplaceGo pat repl n rest

/-- Python `str.replace` (charlist version). -/
def pyReplace (pat repl l : List Char) : List Char :=
  pyReplaceGo pat repl l.length l

/-- `latexescape(text)` from latexbasedoc.py: successive `str.replace`
calls escaping `& $ % # _ { }`, then substituting the three-character
sequence `'â†’'` (a mojibake arrow, as the source file is encoded) by
`$\longrightarrow$`. -/
def latexescape (l : List Char) : List Char :=
  let t1 := pyReplace ['&'] ['\\', '&'] l
  let t2 := pyReplace ['$'] ['\\', '$'] t1
  let t3 := pyReplace ['%'] ['\\', '%'] t2
  let t4 := pyReplace ['#'] ['\\', '#'] t3
  let t5 := pyReplace ['_'] ['\\', '_'] t4
  let t6 := pyReplace ['\x7b'] ['\\', '\x7b'] t5
  let t7 := pyReplace ['\x7d'] ['\\', '\x7d'] t6
  pyReplace ['â', '†', '’'] "$\\longrightarrow$".data t7

/-- The replacement table of `escape` (and `ESCAPE_PAT`) in
latexbasedoc.py. -/
def escapeLookup (c : Char) : List Char :=
  if c = '&' then ['\\', '&']
  else if c = '%' then ['\\', '%']
  else if c = '$' then ['\\', '$']
  else if c = '#' then ['\\', '#']
  else if c = '_' then ['\\', '_']
  else if c = '\x7b' then ['\\', '\x7b']
  else if c = '\x7d' then ['\\', '\x7d']
  else if c = '~' then ['\\', '~', '\x7b', '\x7d']
  else if c = '^' then ['\\', '^', '\x7b', '\x7d']
  else if c = '\\' then "\\textbackslash\x7b\x7d".data
  else [c]

/-- `escape(text)` from latexbasedoc.py: `pattern.sub` with an
alternation of ten single-character patterns, hence a character-wise
substitution through `escapeLookup`. -/
def escape (l : List Char) : List Char := l.flatMap escapeLookup

/-- One single-character escaping stage `str.replace(p, '\' + p)`,
expressed character-wise. -/
def escStep (p c : Char) : List Char := if c = p then ['\\', p] else [c]

/-- The seven characters `latexescape` actually escapes. -/
def sevenChars : List Char := ['&', '$', '%', '#', '_', '\x7b', '\x7d']

/-- The reserved set named by the specification:
`& $ % # _ { } ~ ^ \`. -/
def reservedChars : List Char := sevenChars ++ ['~', '^', '\\']

/-- The per-character fragment produced by the seven `str.replace`
stages of `latexescape` taken together. -/
def latexescapeFrag (c : Char) : List Char :=
  if c ∈ sevenChars then ['\\', c] else [c]

/-- `allEscAux c prev l = true` iff every occurrence of `c` in `l` is
immediately preceded by a backslash (`prev` is the character preceding
`l`). -/
def allEscAux (c : Char) : Char → List Char → Bool
  | _, [] => true
  | prev, a :: rest => ((a != c) || (prev == '\\')) && allEscAux c a rest

/-- Every occurrence of `c` in `l` is immediately preceded by a
backslash ("no unescaped instance of `c`"). -/
def allEsc (c : Char) (l : List Char) : Bool := allEscAux c ' ' l

-- ------------------------------------------------------------------
-- Structure of Table-Memory (latexdoc.py)
-- ------------------------------------------------------------------

/-- `TabCell(colchar, span, head, content)` from latexdoc.py. -/
structure TabCell where
  colchar : Char
  span : ℕ
  head : String
  content : String
deriving DecidableEq

/-- `TabRow()` from latexdoc.py (`cells = []`, `tail = ''`,
`addit = ''` for `\hline` / `\cline`). -/
structure TabRow where
  cells : List TabCell := []
  tail : String := ""
  addit : String := ""
deriving DecidableEq

/-- `TabMem(head)` from latexdoc.py. -/
structure TabMem where
  head : String
  tail : String := ""
  rows : List TabRow := []
deriving DecidableEq

/-- One `self._backend.write(...)` of the table machinery, as a typed
instruction carrying the varying payloads of the written macro text:
`grinittab frac` is `\grinittab{\textwidth}{frac}` (the source
interpolates `repr(1.0/numcols)`, a binary float; it is kept as the
exact rational here), `setpictsize w` is
`\setlength{\grpictsize}{w\grbaseindent}` (the write the picture
branch of `calc_latex_widths` attempts; it is never emitted, because
joining the numeric `self.pict_width` raises `TypeError` first),
`textneedwidth part` is `\grtextneedwidth{part}`,
`setreqpart c` is `\grsetreqpart{\grcolbeg c}`, the four fix
instructions carry their column character, `getspanwidth id cs ce` is
`\grgetspanwidth{\grspanwidth id}{\grcolbeg cs}{\grcolbeg ce}
{\grtempwidth ce}`, `addtotabwidth w` is
`\addtolength{\grtabwidth}{-w\grbaseindent -2\tabcolsep}`, and `text s`
is any other write of plain text `s`. -/
inductive Instr where
  | grinittab (frac : ℚ)
  | setpictsize (w : ℚ)
  | textneedwidth (part : String)
  | setreqfull
  | setreqpart (c : Char)
  | firstfix (c : Char)
  | dividelength
  | secondfix (c : Char)
  | thirdfix (c : Char)
  | fourthfix (c : Char)
  | getspanwidth (id : String) (cstart cend : Char)
  | addtotabwidth (w : ℚ)
  | text (s : String)
deriving DecidableEq

-- ------------------------------------------------------------------
-- repack_row (latexdoc.py)
-- ------------------------------------------------------------------

/-- Python `content.strip(SEPARATION_PAT)`: strips the characters of
the set `{'&'}` from both ends. -/
def stripAmp (l : List Char) : List Char :=
  ((l.dropWhile (fun c => c = '&')).reverse.dropWhile (fun c => c = '&')).reverse

/-- Python `str.split(sep)` for a non-empty separator (charlist
version; the fuel argument, initialised to the length of the list, only
makes the recursion structural; `acc` is the current segment,
reversed). -/
def pySplitGo (sep : List Char) : ℕ → List Char → List Char → List (List Char)
  | _, acc, [] => [acc.reverse]
  | 0, acc, rest => [acc.reverse ++ rest]
  | n + 1, acc, c :: rest =>
    if sep ≠ [] ∧ startsWithL sep (c :: rest) = true then
      acc.reverse :: pySplitGo sep n [] ((c :: rest).drop sep.length)
    else pySplitGo sep n (c :: acc) rest

/-- Python `str.split(sep)` (charlist version). -/
def pySplit (sep l : List Char) : List (List Char) :=
  pySplitGo sep l.length [] l

/-- `cell.content.strip(SEPARATION_PAT).replace('\n', '').split(
SEPARATION_PAT)` from `repack_row`. -/
def decodeMult (s : String) : List String :=
  (pySplit SEPARATION_PAT.data (pyReplace ['\n'] [] (stripAmp s.data))).map
    (fun l => String.mk l)

/-- Python `max` over a list of numbers; raises `ValueError` (modelled
as `none`) on an empty list. -/
def list_max : List ℕ → Option ℕ
  | [] => none
  | x :: xs => some (xs.foldl max x)

/-- Heads and tails of a family of lists, `none` when some list is
exhausted (the stopping condition of Python's `zip`). -/
def headsTails : List (List String) → Option (List String × List (List String))
  | [] => some ([], [])
  | [] :: _ => none
  | (a :: t) :: rest =>
    match headsTails rest with
    | none => none
    | some (hs, ts) => some (a :: hs, t :: ts)

/-- `zip(*ls)` with fuel (the length of the first list bounds the
number of produced rows). -/
def pyZipStarGo : ℕ → List (List String) → List (List String)
  | 0, _ => []
  | n + 1, ls =>
    match headsTails ls with
    | none => []
    | some (hs, ts) => hs :: pyZipStarGo n ts

/-- Python `list(zip(*ls))`: transpose, truncating at the shortest
list. -/
def pyZipStar (ls : List (List String)) : List (List String) :=
  if ls = [] then [] else pyZipStarGo (ls.headD []).length ls

/-- Result state of `repack_row`: the new rows appended to
`tabmem.rows`, the updated `numcols`, the extracted picture (when one
was extracted) and the reset `pict_in_table` flag. -/
structure RepackOut where
  rows : List TabRow
  numcols : ℕ
  pict : Option String
  pict_in_table : Bool
deriving DecidableEq

/-- One new row of `repack_row` (the inner
`for i in range(first_cell, last_cell)` loop, with `first_cell = 0`):
`TabCell(get_charform(i + first_cell), cells[i].span, cells[i].head,
transp_cont[row][i + first_cell])`, `none` on an index/charform
error. -/
def repackNewRow (cells : List TabCell) (trow : List String) (lastCell : ℕ)
    (tl : String) : Option TabRow :=
  ((List.range lastCell).mapM (fun i => do
    let oc ← cells.get? i
    let ch ← get_charform (i : ℤ)
    let cont ← trow.get? i
    pure (TabCell.mk ch oc.span oc.head cont))).map
    (fun cs => TabRow.mk cs tl "")

/-- The `for row in range(num_new_rows)` loop of `repack_row`. -/
def repackRows (cells : List TabCell) (transp : List (List String))
    (lastCell m : ℕ) (tl : String) : Option (List TabRow) :=
  (List.range m).mapM (fun r =>
    match transp.get? r with
    | none => none
    | some trow => repackNewRow cells trow lastCell tl)

/-- `LaTeXDoc.repack_row` from latexdoc.py: transpose a row of
columns-of-cells into rows of cells.  Returns the backend writes made
together with `none` when the Python raises (`cells[-1]` on an empty
row, `max([])` on an empty list, or an out-of-range index while
building the new rows). -/
def repack_row (numcols : ℕ) (pict_in_table : Bool) (pict_width : ℚ)
    (tabrow : TabRow) : List Instr × Option RepackOut :=
  match tabrow.cells.getLast? with
  | none => ([], none)
  | some lastc =>
    -- if last col empty: delete
    let (cells, nc1) :=
      if lastc.content = "" then (tabrow.cells.dropLast, numcols - 1)
      else (tabrow.cells, numcols)
    -- extract cell.contents
    let bare := cells.map (fun c => decodeMult c.content)
    -- mk equal length & transpose
    match list_max (bare.map (fun l => l.length)) with
    | none => ([], none)
    | some m =>
      let colsEqu := bare.map (fun l => l ++ List.replicate (m - l.length) "")
      let transp := pyZipStar colsEqu
      -- picts? extract (`transp_cont[0][-1]`; `transp` is never empty
      -- at this point, so the defaults of `headD`/`getLastD` are inert)
      let lastv := (transp.headD []).getLastD ""
      let (instrs, lastCell, nc2, pict) :=
        if pict_in_table ∧ lastv.startsWith "\\grmkpicture" then
          ([Instr.addtotabwidth pict_width], nc1 - 1, nc1 - 1, some lastv)
        else (([] : List Instr), nc1, nc1, none)
      -- new row-col structure
      match repackRows cells transp lastCell m tabrow.tail with
      | none => (instrs, none)
      | some rows =>
        match rows.getLast? with
        | none => (instrs, none)
        | some lastRow =>
          (instrs,
           some ⟨rows.dropLast ++ [{ lastRow with addit := tabrow.addit }],
                 nc2, pict, false⟩)

instance : Inhabited TabCell := ⟨⟨'a', 0, "", ""⟩⟩

-- ------------------------------------------------------------------
-- calc_latex_widths (latexdoc.py)
-- ------------------------------------------------------------------

/-- The per-cell measurement writes of the column loop of
`calc_latex_widths`: a text cell requests a text-width measurement for
every `SEPARATION_PAT`-separated part of its content.  For a picture
cell the source builds the `\setlength{\grpictsize}{...}` text by
passing the bare numeric `self.pict_width` to `''.join(...)`, which
raises `TypeError` before anything reaches the backend (the two other
interpolations of `pict_width` use `repr`, this one does not), so the
picture branch produces no write and `false` flags the raise. -/
def cellMeasureInstrs (pict_width : ℚ) (cell : TabCell) : List Instr × Bool :=
  if cell.content.startsWith "\\grmkpicture" then ([], false)
  else ((pySplit SEPARATION_PAT.data cell.content.data).map
    (fun p => Instr.textneedwidth (String.mk p)), true)

/-- All writes of the column loop of `calc_latex_widths` for one cell:
measurement writes (whose picture branch raises `TypeError`), then
`\grsetreqfull` (span 1) or `\grsetreqpart` (span > 1, whose inner
`get_charform` may raise) — `false` flags a raise, with the writes
made up to that point. -/
def cellCalcInstrs (pict_width : ℚ) (cell : TabCell) : List Instr × Bool :=
  if cell.span = 0 then ([], true)
  else
    match cellMeasureInstrs pict_width cell with
    | (ms, false) => (ms, false)
    | (ms, true) =>
      if cell.span = 1 then (ms ++ [Instr.setreqfull], true)
      else
        match get_charform (get_numform cell.colchar - cell.span + 1) with
        | none => (ms, false)
        | some ch => (ms ++ [Instr.setreqpart ch], true)

/-- The `for row in self.tabmem.rows` loop of `calc_latex_widths` for
one column: `row.cells[col_num]` raises `IndexError` (flagged `false`)
on a too-short row. -/
def rowsColInstrs (pict_width : ℚ) (col : ℕ) : List TabRow → List Instr × Bool
  | [] => ([], true)
  | row :: rest =>
    match row.cells.get? col with
    | none => ([], false)
    | some cell =>
      match cellCalcInstrs pict_width cell with
      | (is1, false) => (is1, false)
      | (is1, true) =>
        match rowsColInstrs pict_width col rest with
        | (is2, ok2) => (is1 ++ is2, ok2)

/-- Pass 1 of `calc_latex_widths` over the given column numbers:
per column, the measurement writes of all its cells followed by one
`\grcolsfirstfix`; also accumulates `tabcol_chars`. -/
def pass1Go (pict_width : ℚ) (rows : List TabRow) :
    List ℕ → List Instr × List Char × Bool
  | [] => ([], [], true)
  | col :: cols =>
    match get_charform (col : ℤ) with
    | none => ([], [], false)
    | some ch =>
      match rowsColInstrs pict_width col rows with
      | (is1, false) => (is1, [ch], false)
      | (is1, true) =>
        match pass1Go pict_width rows cols with
        | (is2, chs, ok2) => (is1 ++ [Instr.firstfix ch] ++ is2, ch :: chs, ok2)

/-- The `\grgetspanwidth` loop of `calc_latex_widths` over the cells of
one row; `counterIdx` is the number of `next(multcol_alph_counter)`
calls made so far (the counter raises past 17576). -/
def spanLoopCells (counterIdx : ℕ) : List TabCell → List Instr × ℕ × Bool
  | [] => ([], counterIdx, true)
  | cell :: rest =>
    if cell.span > 1 then
      match strIncrNth MULTCOL_COUNT_BASE counterIdx with
      | none => ([], counterIdx, false)
      | some idStr =>
        match get_charform (get_numform cell.colchar - cell.span + 1) with
        | none => ([], counterIdx, false)
        | some ch =>
          match spanLoopCells (counterIdx + 1) rest with
          | (is2, n2, ok2) =>
            (Instr.getspanwidth (String.mk idStr) ch cell.colchar :: is2, n2, ok2)
    else spanLoopCells counterIdx rest

/-- The `\grgetspanwidth` loop of `calc_latex_widths` over all rows. -/
def spanLoopRows (counterIdx : ℕ) : List TabRow → List Instr × ℕ × Bool
  | [] => ([], counterIdx, true)
  | row :: rest =>
    match spanLoopCells counterIdx row.cells with
    | (is1, n1, false) => (is1, n1, false)
    | (is1, n1, true) =>
      match spanLoopRows n1 rest with
      | (is2, n2, ok2) => (is1 ++ is2, n2, ok2)

/-- The in-place rewriting `row.cells[col_num].content =
cell.content.replace(SEPARATION_PAT, '~\newline \n')` performed by the
column loop on every visited non-phantom text cell. -/
def mutateCellContent (cell : TabCell) : TabCell :=
  if cell.span = 0 then cell
  else if cell.content.startsWith "\\grmkpicture" then cell
  else { cell with content := cell.content.replace SEPARATION_PAT "~\\newline \n" }

/-- The content rewriting of `calc_latex_widths` applied to a row
(columns `0 ≤ i < numcols` are visited). -/
def mutateRow (numcols : ℕ) (row : TabRow) : TabRow :=
  { row with cells :=
      row.cells.mapIdx (fun i c => if i < numcols then mutateCellContent c else c) }

/-- The content rewriting of `calc_latex_widths` applied to the whole
buffered table. -/
def mutateTab (numcols : ℕ) (mem : TabMem) : TabMem :=
  { mem with rows := mem.rows.map (mutateRow numcols) }

/-- `LaTeXDoc.calc_latex_widths` from latexdoc.py: the writes of the
four width-negotiation passes followed by the span-width loop, plus the
mutated table (`none` when the Python raises; the writes made before
the raise are still returned). -/
def calc_latex_widths (numcols : ℕ) (pict_width : ℚ) (tabmem : TabMem) :
    List Instr × Option TabMem :=
  match pass1Go pict_width tabmem.rows (List.range numcols) with
  | (p1, _, false) => (p1, none)
  | (p1, chars, true) =>
    let fixes := [Instr.dividelength] ++ chars.map Instr.secondfix ++
      [Instr.dividelength] ++ chars.map Instr.thirdfix ++
      [Instr.dividelength] ++ chars.map Instr.fourthfix
    match spanLoopRows 0 tabmem.rows with
    | (sp, _, ok2) =>
      (p1 ++ fixes ++ sp, if ok2 then some (mutateTab numcols tabmem) else none)

/-- The width-negotiation instructions of the four-pass protocol. -/
def isFixInstr : Instr → Bool
  | .firstfix _ => true
  | .dividelength => true
  | .secondfix _ => true
  | .thirdfix _ => true
  | .fourthfix _ => true
  | _ => false

-- ------------------------------------------------------------------
-- write_table and row emission (latexdoc.py)
-- ------------------------------------------------------------------

/-- The width token of a rendered cell: `\grtempwidth<col>` for a
single-column cell, `\grspanwidth<id>` (consuming the multi-column
counter, which may raise) for a span. -/
def mkCellWidth (counterIdx : ℕ) (cell : TabCell) : Option (String × ℕ) :=
  if cell.span = 1 then some ("\\grtempwidth".push cell.colchar, counterIdx)
  else
    match strIncrNth MULTCOL_COUNT_BASE counterIdx with
    | none => none
    | some idStr => some ("\\grspanwidth" ++ String.mk idStr, counterIdx + 1)

/-- `LaTeXDoc.mk_splitting_row` cell loop: skip phantom cells, choose
the continuation indicator (`\graddvdots` only when the first rendered
cell sits in the table's true last column, else `\grempty`), pick the
width token, and render a `\grtabpgbreak` fragment. -/
def mk_splitting_row_go (numcols : ℕ) (counterIdx : ℕ) (vdots : String)
    (started : Bool) : List TabCell → Option (List String × ℕ)
  | [] => some ([], counterIdx)
  | cell :: rest =>
    if cell.span = 0 then mk_splitting_row_go numcols counterIdx vdots started rest
    else
      let vd := if started = false ∧ get_numform cell.colchar = (numcols : ℤ) - 1
        then "\\graddvdots" else vdots
      match mkCellWidth counterIdx cell with
      | none => none
      | some (w, n2) =>
        match mk_splitting_row_go numcols n2 vd true rest with
        | none => none
        | some (frs, n3) =>
          some (("\\grtabpgbreak\x7b" ++ cell.head ++ "\x7d\x7b" ++ w ++
            "\x7d\x7b" ++ vd ++ "\x7d\x7b+2ex\x7d%\n") :: frs, n3)

/-- `LaTeXDoc.mk_splitting_row` from latexdoc.py. -/
def mk_splitting_row (numcols : ℕ) (row : TabRow) : Option String :=
  match mk_splitting_row_go numcols 0 "\\grempty" false row.cells with
  | none => none
  | some (frs, _) => some (String.intercalate " & " frs ++ "%\n" ++ row.tail)

/-- `LaTeXDoc.mk_complete_row` cell loop. -/
def mk_complete_row_go (counterIdx : ℕ) : List TabCell → Option (List String × ℕ)
  | [] => some ([], counterIdx)
  | cell :: rest =>
    if cell.span = 0 then mk_complete_row_go counterIdx rest
    else
      match mkCellWidth counterIdx cell with
      | none => none
      | some (w, n2) =>
        match mk_complete_row_go n2 rest with
        | none => none
        | some (frs, n3) =>
          some (("\\grcolpart\x7b%\n  " ++ cell.head ++ "\x7d\x7b%\n" ++ w ++
            "\x7d\x7b%\n  " ++ cell.content ++ "%\n\x7d%\n") :: frs, n3)

/-- `LaTeXDoc.mk_complete_row` from latexdoc.py (threading the
multi-column counter). -/
def mk_complete_row (counterIdx : ℕ) (row : TabRow) : Option (String × ℕ) :=
  match mk_complete_row_go counterIdx row.cells with
  | none => none
  | some (frs, n) =>
    some (String.intercalate " & " frs ++ "%\n" ++ row.tail ++ row.addit, n)

/-- The `for row in self.tabmem.rows[SUBSEQ_ROW:]` loop of
`write_table` (the counter continues from the first complete row). -/
def subseqRows (counterIdx : ℕ) : List TabRow → Option (List String)
  | [] => some []
  | row :: rest =>
    match mk_complete_row counterIdx row with
    | none => none
    | some (s, n2) =>
      (subseqRows n2 rest).map (fun rs => s :: rs)

/-- `LaTeXDoc.write_table` from latexdoc.py, as the list of backend
writes plus the updated `(pict, head_line)` state; `none` on a raise
(`rows[FIRST_ROW]` of an empty table, `get_charform` past column 26, or
multi-column counter overflow; the writes preceding such a raise are
returned as made). -/
def write_table (numcols : ℕ) (pict : String) (head_line : Bool) (mem : TabMem) :
    List Instr × Option (String × Bool) :=
  let pre : List Instr :=
    [Instr.text ("%\n" ++ pict ++ "%\n%\n" ++
      "%  ==> Comment out one of the two lines by a leading \"%\" (first position)\n" ++
      "\x7b \\RaggedRight%      left align with hyphenation in table \n" ++
      "%\x7b%                no left align in table \n%\n" ++
      "%  ==>  You may add pos or neg values to the following " ++
      toString numcols ++ " column widths %\n")]
  match (List.range numcols).mapM (fun i => (get_charform (i : ℤ)).map
      (fun ch => Instr.text ("\\addtolength\x7b\\grtempwidth" ++
        String.singleton ch ++ "\x7d\x7b+0.0cm\x7d%\n"))) with
  | none => (pre, none)
  | some colWrites =>
    let pre2 := pre ++ colWrites ++ [Instr.text "%  === %\n"] ++
      (if pict ≠ "" then
        [Instr.text ("%\n\\vspace\x7b\\grtabprepos\x7d%\n" ++
          "\\setlength\x7b\\grtabprepos\x7d\x7b0ex\x7d%\n")]
      else []) ++ [Instr.text mem.head]
    match mem.rows.head? with
    | none => (pre2, none)
    | some firstRow =>
      match mk_splitting_row numcols firstRow, mk_complete_row 0 firstRow with
      | some splitRow, some (completeRow, cIdx) =>
        match subseqRows cIdx mem.rows.tail with
        | none => (pre2, none)
        | some subs =>
          (pre2 ++
           [Instr.text splitRow, Instr.text "\\endhead%\n",
            Instr.text (splitRow.replace "\x7b+2ex\x7d" "\x7b-2ex\x7d"),
            Instr.text "\\endfoot%\n",
            Instr.text (if head_line then "\\hline%\n" else "%\n"),
            Instr.text completeRow, Instr.text "\\endfirsthead%\n",
            Instr.text "\\endlastfoot%\n"] ++
           subs.map Instr.text ++
           [Instr.text (mem.tail ++ "\x7d%\n\n")],
           some ("", false))
      | _, _ => (pre2, none)

-- ------------------------------------------------------------------
-- The table event router (latexdoc.py, handle_table / start_cell)
-- ------------------------------------------------------------------

/-- The table-routing constants `CELL_BEG .. TAB_END` of latexdoc.py
(`list(range(7))` there). -/
inductive TabState where
  | CELL_BEG
  | CELL_TEXT
  | CELL_END
  | ROW_BEG
  | ROW_END
  | TAB_BEG
  | TAB_END
deriving DecidableEq

/-- The mutable attributes of `LaTeXDoc` driven by the table state
machine. -/
structure RouterState where
  in_multrow_cell : Bool
  pict : String
  pict_in_table : Bool
  pict_width : ℚ
  textmem : List String
  curcol : ℕ
  numcols : ℕ
  curcol_char : Char
  tabrow : TabRow
  tabcell : TabCell
  tabmem : TabMem
  doline : Bool
  skipfirst : Bool
  head_line : Bool
deriving DecidableEq

/-- Substring test (`str.find(pat) != -1`). -/
def containsSub (pat : List Char) : List Char → Bool
  | [] => startsWithL pat []
  | c :: rest => startsWithL pat (c :: rest) || containsSub pat rest

/-- One match of `TBLFMT_PAT = ({\|?)l(\|?})` at the head of the list,
returning the `\1c\2` replacement and the rest. -/
def tblfmtMatch : List Char → Option (List Char × List Char)
  | '\x7b' :: '|' :: 'l' :: '|' :: '\x7d' :: r =>
    some (['\x7b', '|', 'c', '|', '\x7d'], r)
  | '\x7b' :: '|' :: 'l' :: '\x7d' :: r => some (['\x7b', '|', 'c', '\x7d'], r)
  | '\x7b' :: 'l' :: '|' :: '\x7d' :: r => some (['\x7b', 'c', '|', '\x7d'], r)
  | '\x7b' :: 'l' :: '\x7d' :: r => some (['\x7b', 'c', '\x7d'], r)
  | _ => none

/-- `re.sub(TBLFMT_PAT, '\\1c\\2', s)` (fuel only makes the recursion
structural). -/
def tblfmtSubGo : ℕ → List Char → List Char
  | _, [] => []
  | 0, l => l
  | n + 1, c :: rest =>
    match tblfmtMatch (c :: rest) with
    | some (repl, remaining) => repl ++ tblfmtSubGo n remaining
    | none => c :: tblfmtSubGo n rest

/-- `re.sub(TBLFMT_PAT, '\\1c\\2', s)` on strings. -/
def tblfmtSub (s : String) : String :=
  String.mk (tblfmtSubGo s.data.length s.data)

/-- The phantom cells appended ahead of a multi-column cell at
`CELL_BEG` (`for col in range(self.curcol - span, self.curcol - 1)`);
`none` when `get_charform` raises inside the loop. -/
def phantomCells (curcol span : ℕ) : Option (List TabCell) :=
  if span > 1 then
    (List.range (span - 1)).mapM (fun (k : ℕ) =>
      (get_charform ((curcol : ℤ) - (span : ℤ) + (k : ℤ))).map
        (fun ch => TabCell.mk ch 0 "" ""))
  else some []

/-- Python `str.strip()` on the left end of a character list. -/
def pyStripL : List Char → List Char
  | [] => []
  | c :: r => if c.isWhitespace then pyStripL r else c :: r

/-- Python `str.strip()`: drop leading and trailing whitespace. -/
def pyStrip (s : String) : String :=
  String.mk ((pyStripL ((pyStripL s.data).reverse)).reverse)

/-- `LaTeXDoc.handle_table` from latexdoc.py: route one table event
into the cell/row/table buffer; returns the updated state (`none` when
the Python raises) and the backend writes the event produced. -/
def handle_table (s : RouterState) (text : String) (tab_state : TabState)
    (span : ℕ) : Option RouterState × List Instr :=
  match tab_state with
  | .CELL_BEG =>
    match get_charform ((s.curcol : ℤ) - 1) with
    | none => (none, [])
    | some cc =>
      match phantomCells s.curcol span with
      | none => (none, [])
      | some phs =>
        (some { s with
                textmem := []
                curcol_char := cc
                tabrow := { s.tabrow with cells := s.tabrow.cells ++ phs }
                tabcell := TabCell.mk cc span text "" }, [])
  | .CELL_TEXT => (some { s with textmem := s.textmem ++ [text] }, [])
  | .CELL_END =>
    let content := pyStrip (String.join s.textmem)
    let (content2, head2) :=
      if containsSub "\\centering".data content.data = true then
        (String.mk (pyReplace "\\centering".data [] content.data),
         tblfmtSub s.tabcell.head)
      else (content, s.tabcell.head)
    let cell2 := { s.tabcell with content := content2, head := head2 }
    (some { s with
            tabcell := cell2
            tabrow := { s.tabrow with cells := s.tabrow.cells ++ [cell2] }
            textmem := [] }, [])
  | .ROW_BEG => (some { s with tabrow := TabRow.mk [] "" "" }, [])
  | .ROW_END =>
    let tabrow2 := { s.tabrow with addit := text, tail := String.join s.textmem }
    if s.in_multrow_cell = true then
      match repack_row s.numcols s.pict_in_table s.pict_width tabrow2 with
      | (instrs, none) => (none, instrs)
      | (instrs, some out) =>
        (some { s with
                tabrow := tabrow2
                tabmem := { s.tabmem with rows := s.tabmem.rows ++ out.rows }
                numcols := out.numcols
                pict_in_table := out.pict_in_table
                in_multrow_cell := false
                pict := match out.pict with | some p => p | none => s.pict },
         instrs)
    else
      (some { s with
              tabrow := tabrow2
              tabmem := { s.tabmem with rows := s.tabmem.rows ++ [tabrow2] } }, [])
  | .TAB_BEG =>
    if s.numcols = 0 then (none, [])
    else (some { s with tabmem := TabMem.mk text "" [] },
          [Instr.grinittab (1 / (s.numcols : ℚ))])
  | .TAB_END =>
    let mem := { s.tabmem with tail := text }
    match calc_latex_widths s.numcols s.pict_width mem with
    | (cis, none) => (none, cis)
    | (cis, some mem2) =>
      match write_table s.numcols s.pict s.head_line mem2 with
      | (wis, none) => (none, cis ++ wis)
      | (wis, some (pict2, hl2)) =>
        (some { s with tabmem := mem2, pict := pict2, head_line := hl2 }, cis ++ wis)

/-- The cell-style booleans consumed by `start_cell`. -/
structure CellStyle where
  lborder : Bool
  rborder : Bool
  bborder : Bool
  tborder : Bool
deriving DecidableEq

/-- The cell format fragment built by `start_cell` (`"l"` with vertical
rules per the style's left/right borders). -/
def cellfmtOf (style : CellStyle) : String :=
  let f1 := if style.lborder = true then "|" ++ "l" else "l"
  if style.rborder = true then f1 ++ "|" else f1

/-- `LaTeXDoc.start_cell` from latexdoc.py (in-table path): advance the
column cursor by the span, set the rule flags from the style, and emit
the `\multicolumn{span}{fmt}` header as a `CELL_BEG` event. -/
def start_cell (s : RouterState) (style : CellStyle) (span : ℕ) :
    Option RouterState × List Instr :=
  let curcol2 := s.curcol + span
  let s1 := { s with
    curcol := curcol2
    doline := if style.bborder = true then true else s.doline
    skipfirst := if style.bborder = true then s.skipfirst
      else if curcol2 = 1 then true else s.skipfirst
    head_line := if style.tborder = true then true else s.head_line }
  handle_table s1
    ("\\multicolumn\x7b" ++ toString span ++ "\x7d\x7b" ++ cellfmtOf style ++ "\x7d")
    TabState.CELL_BEG span

/-- A concrete router state: a freshly opened 2-column table with an
empty buffer (as right after `start_table` and `start_row`). -/
def sampleState : RouterState where
  in_multrow_cell := false
  pict := ""
  pict_in_table := false
  pict_width := 0
  textmem := []
  curcol := 0
  numcols := 2
  curcol_char := 'a'
  tabrow := ⟨[], "", ""⟩
  tabcell := ⟨'a', 1, "", ""⟩
  tabmem := ⟨"\\begin\x7blongtable\x7d[l]\x7b*\x7b2\x7d\x7bl\x7d\x7d\n", "", []⟩
  doline := false
  skipfirst := false
  head_line := false

-- ------------------------------------------------------------------
-- The TeX side: the table macros of _LATEX_TEMPLATE (latexbasedoc.py)
-- ------------------------------------------------------------------

/-- The engine-side parameters of a run of the emitted instructions:
the page length `\textwidth`, the paddings `\tabcolsep` and
`\grbaseindent`, and the measurement oracle behind `\settowidth`
(the width LaTeX assigns to a piece of text). -/
structure TexParams where
  textwidth : ℚ
  tabcolsep : ℚ
  baseindent : ℚ
  measure : String → ℚ

/-- The TeX registers driven by the emitted table macros of
`_LATEX_TEMPLATE`: the global lengths and counters declared by
`\newlength`/`\newcounter`, the per-column length families
(`\grcolbega"..."\grcolbegz` etc., indexed 0..25 here), and the named
`\grspanwidth` lengths created by `\grgetspanwidth`. -/
structure TexState where
  tabwidth : ℚ
  reqwidth : ℚ
  prorated : ℚ
  widthused : ℚ
  maxwidth : ℚ
  xwd : ℚ
  tempwd : ℚ
  reduce : ℚ
  curcolend : ℚ
  pictsize : ℚ
  maxpictsize : ℚ
  textsize : ℚ
  maxtextsize : ℚ
  tofixcnt : ℤ
  xwdcolcnt : ℤ
  colbeg : List ℚ
  tempwidth : List ℚ
  finalwidth : List ℚ
  pictreq : List ℚ
  textreq : List ℚ
  spanwidths : List (String × ℚ)
deriving DecidableEq

/-- `\grmaxvaltofirst{#1}{#2}`: set `#1` to `#2` only if `#1 < #2`,
i.e. `#1 := max(#1, #2)`. -/
def maxQ (a b : ℚ) : ℚ := if a < b then b else a

/-- The rough-division cascade of `\grdividelength`: the value assigned
to `\grxwd` from `\grtempwd` for `1 ≤ grtofixcnt ≤ 10` (with the
truncated decimal factors of the template), `\grprorated` beyond. -/
def grxwdOf (cnt : ℤ) (tempwd prorated : ℚ) : ℚ :=
  if cnt = 1 then tempwd
  else if cnt = 2 then (5 / 10) * tempwd
  else if cnt = 3 then (333 / 1000) * tempwd
  else if cnt = 4 then (25 / 100) * tempwd
  else if cnt = 5 then (2 / 10) * tempwd
  else if cnt = 6 then (166 / 1000) * tempwd
  else if cnt = 7 then (143 / 1000) * tempwd
  else if cnt = 8 then (125 / 1000) * tempwd
  else if cnt = 9 then (111 / 1000) * tempwd
  else if cnt = 10 then (1 / 10) * tempwd
  else prorated

/-- One emitted instruction, interpreted exactly per the corresponding
macro body in `_LATEX_TEMPLATE` (`\grinittab`, `\grtextneedwidth`,
`\grsetreqfull`, `\grsetreqpart`, `\grcolsfirstfix`, `\grdividelength`,
`\grcolssecondfix`, `\grcolsthirdfix`, `\grcolsfourthfix`,
`\grgetspanwidth`); `\grinitlength` assigns unconditionally (it only
creates the length first when undefined), and `\newlength` registers
start at 0, so the per-column families live in 26-entry vectors. -/
def texStep (p : TexParams) (st : TexState) : Instr → TexState
  | .grinittab frac =>
    { st with
        tabwidth := p.textwidth
        prorated := frac * p.textwidth
        widthused := 0
        reqwidth := 0
        maxwidth := 0
        xwd := 0
        tempwd := 0
        pictsize := 0
        maxpictsize := 0
        textsize := 0
        maxtextsize := 0
        curcolend := 0
        xwdcolcnt := 0
        tofixcnt := 0
        colbeg := st.colbeg.set 0 0 }
  | .setpictsize w => { st with pictsize := w * p.baseindent }
  | .textneedwidth part =>
    let t := p.measure part
    { st with
        tempwd := t
        textsize := maxQ st.textsize t }
  | .setreqfull =>
    { st with
        maxpictsize := maxQ st.maxpictsize st.pictsize
        maxtextsize := maxQ st.maxtextsize st.textsize }
  | .setreqpart c =>
    let d := st.colbeg.getD (colIdx c) 0 - st.curcolend
    let ts := st.textsize + d
    let ps := st.pictsize + d
    { st with
        textsize := ts
        pictsize := ps
        maxpictsize := maxQ st.maxpictsize ps
        maxtextsize := maxQ st.maxtextsize ts }
  | .firstfix c =>
    let j := colIdx c
    let tw := maxQ st.maxtextsize st.maxpictsize + 2 * p.tabcolsep
    if tw < st.maxpictsize ∨ tw < st.prorated then
      { st with
          colbeg := st.colbeg.set j st.curcolend
          finalwidth := (st.finalwidth.set j 0).set j tw
          pictreq := st.pictreq.set j st.maxpictsize
          textreq := st.textreq.set j st.maxtextsize
          tempwidth := st.tempwidth.set j tw
          maxwidth := maxQ st.maxwidth tw
          widthused := st.widthused + tw
          curcolend := st.curcolend + tw }
    else
      { st with
          colbeg := st.colbeg.set j st.curcolend
          finalwidth := st.finalwidth.set j 0
          pictreq := st.pictreq.set j st.maxpictsize
          textreq := st.textreq.set j st.maxtextsize
          tempwidth := st.tempwidth.set j tw
          maxwidth := maxQ st.maxwidth tw
          tofixcnt := st.tofixcnt + 1
          curcolend := st.curcolend + tw }
  | .dividelength =>
    let t := st.tabwidth - st.widthused
    if 0 < st.tofixcnt then
      { st with
          tempwd := t
          xwd := grxwdOf st.tofixcnt t st.prorated
          reduce := 0 }
    else
      { st with
          tempwd := t
          xwd := 0 }
  | .secondfix c =>
    let j := colIdx c
    if st.curcolend < st.tabwidth then
      { st with finalwidth := st.finalwidth.set j (st.tempwidth.getD j 0) }
    else
      let cb := st.colbeg.set j (st.colbeg.getD j 0 - st.reduce)
      if st.tempwidth.getD j 0 = st.maxwidth then
        { st with
            colbeg := cb
            xwdcolcnt := st.xwdcolcnt + 1 }
      else if st.finalwidth.getD j 0 = 0 ∧ 0 < st.pictreq.getD j 0 then
        let t := maxQ (st.pictreq.getD j 0) st.xwd
        { st with
            colbeg := cb
            tempwd := t
            reduce := st.reduce + (st.tempwidth.getD j 0 - t)
            tempwidth := st.tempwidth.set j t
            widthused := st.widthused + t
            tofixcnt := st.tofixcnt - 1
            finalwidth := st.finalwidth.set j t }
      else { st with colbeg := cb }
  | .thirdfix c =>
    let j := colIdx c
    if st.curcolend < st.tabwidth then st
    else
      let cb := st.colbeg.set j (st.colbeg.getD j 0 - st.reduce)
      if st.finalwidth.getD j 0 = 0 ∧ st.tempwidth.getD j 0 < st.maxwidth then
        let t := if st.tempwidth.getD j 0 < (5 / 10) * st.maxwidth then
            maxQ ((5 / 10) * st.xwd) ((7 / 10) * st.prorated)
          else st.xwd
        { st with
            colbeg := cb
            tempwd := t
            reduce := st.reduce + (st.tempwidth.getD j 0 - t)
            tempwidth := st.tempwidth.set j t
            widthused := st.widthused + t
            tofixcnt := st.tofixcnt - 1
            finalwidth := st.finalwidth.set j t }
      else { st with colbeg := cb }
  | .fourthfix c =>
    let j := colIdx c
    if st.curcolend < st.tabwidth then st
    else
      let cb := st.colbeg.set j (st.colbeg.getD j 0 - st.reduce)
      if st.finalwidth.getD j 0 = 0 then
        { st with
            colbeg := cb
            reduce := st.reduce + (st.tempwidth.getD j 0 - st.xwd)
            tempwidth := st.tempwidth.set j st.xwd
            finalwidth := st.finalwidth.set j st.xwd }
      else { st with colbeg := cb }
  | .getspanwidth id cs ce =>
    { st with spanwidths := st.spanwidths ++
        [(id, st.colbeg.getD (colIdx ce) 0 - st.colbeg.getD (colIdx cs) 0 +
          st.tempwidth.getD (colIdx ce) 0)] }
  | .addtotabwidth w =>
    { st with tabwidth := st.tabwidth + (-(w * p.baseindent) - 2 * p.tabcolsep) }
  | .text _ => st

/-- Run a list of emitted instructions in order. -/
def texExec (p : TexParams) (st : TexState) (l : List Instr) : TexState :=
  l.foldl (texStep p) st

/-- The registers before any instruction runs: every `\newlength` is
created at `0pt`, every `\newcounter` at 0. -/
def initTexState : TexState where
  tabwidth := 0
  reqwidth := 0
  prorated := 0
  widthused := 0
  maxwidth := 0
  xwd := 0
  tempwd := 0
  reduce := 0
  curcolend := 0
  pictsize := 0
  maxpictsize := 0
  textsize := 0
  maxtextsize := 0
  tofixcnt := 0
  xwdcolcnt := 0
  colbeg := List.replicate 26 0
  tempwidth := List.replicate 26 0
  finalwidth := List.replicate 26 0
  pictreq := List.replicate 26 0
  textreq := List.replicate 26 0
  spanwidths := []

/-- The width-negotiation stream of one buffered table: the
`\grinittab{\textwidth}{1/numcols}` written at `TAB_BEG` followed by
all the writes of `calc_latex_widths` at `TAB_END`. -/
def negotiationStream (numcols : ℕ) (pict_width : ℚ) (mem : TabMem) : List Instr :=
  Instr.grinittab (1 / (numcols : ℚ)) :: (calc_latex_widths numcols pict_width mem).1

/-- The sum of the finalized column-width registers over the declared
columns. -/
def sumFinal (st : TexState) (n : ℕ) : ℚ :=
  ((List.range n).map (fun i => st.finalwidth.getD i 0)).sum

/-- Instructions whose macro writes the `\grfinalwidth`/`\grtempwidth`
pair of a column to different values (only `\grcolsfirstfix` does). -/
def isFirstFix : Instr → Bool
  | .firstfix _ => true
  | _ => false

/-- Instructions whose macro leaves `\grcurcolend` and `\grtabwidth`
unchanged (all but `\grinittab`, `\grcolsfirstfix` and the
`\addtolength{\grtabwidth}` write of the picture extraction). -/
def qSafe : Instr → Bool
  | .grinittab _ => false
  | .firstfix _ => false
  | .addtotabwidth _ => false
  | _ => true

/-- The per-column register vectors have their declared 26 entries. -/
def regsWF (st : TexState) : Prop :=
  st.finalwidth.length = 26 ∧ st.tempwidth.length = 26

/-- Column `j`'s final-width register agrees with its temp-width
register. -/
def finEqTemp (j : ℕ) (st : TexState) : Prop :=
  st.finalwidth.getD j 0 = st.tempwidth.getD j 0

/-- Column `j`'s final width is still unset (0), or already agrees with
its temp width. -/
def finZeroOrTemp (j : ℕ) (st : TexState) : Prop :=
  st.finalwidth.getD j 0 = 0 ∨ finEqTemp j st

/-- A seven-column single-row table whose every cell holds the plain
text `t`. -/
def sevenColMem : TabMem :=
  ⟨"\\begin\x7blongtable\x7d[l]\x7b*\x7b7\x7d\x7bl\x7d\x7d\n", "",
   [⟨[⟨'a', 1, "{l}", "t"⟩, ⟨'b', 1, "{l}", "t"⟩, ⟨'c', 1, "{l}", "t"⟩,
     ⟨'d', 1, "{l}", "t"⟩, ⟨'e', 1, "{l}", "t"⟩, ⟨'f', 1, "{l}", "t"⟩,
     ⟨'g', 1, "{l}", "t"⟩], "\\\\ ", ""⟩]⟩

/-- Engine parameters for the seven-column example: `\textwidth` of
7000 units, no `\tabcolsep` padding, and every measured text 2000 units
wide. -/
def sevenColParams : TexParams := ⟨7000, 0, 1, fun _ => 2000⟩

/-- The register state after executing the whole negotiation stream of
the seven-column table. -/
def sevenColRun : TexState :=
  texExec sevenColParams initTexState (negotiationStream 7 0 sevenColMem)

end Gramps

-- ------------------------------------------------------------------
-- Theorems for the character-form helpers
-- ------------------------------------------------------------------

namespace Gramps

theorem get_charform_lt (n : ℕ) (h : n ≤ 25) :
    get_charform n = some (Char.ofNat (97 + n)) := by
  unfold get_charform
  have h1 : ¬((n : ℤ) > 25) := by exact_mod_cast not_lt.mpr (by exact_mod_cast h)
  rw [if_neg h1, if_pos (by positivity)]
  congr 1

/-- C7: `get_charform` raises an error exactly for column indexes above 25,
and for every index `0..25` returns the corresponding letter `a..z`. -/
theorem get_charform_error_iff :
    (∀ n : ℕ, get_charform n = none ↔ 25 < n) ∧
    (∀ n : ℕ, n ≤ 25 → get_charform n = some (Char.ofNat (97 + n))) := by
  constructor
  · intro n
    constructor
    · intro h
      by_contra hn
      rw [get_charform_lt n (by omega)] at h
      exact Option.noConfusion h
    · intro h
      unfold get_charform
      rw [if_pos (by exact_mod_cast h)]
  · exact get_charform_lt

/-- Witness for C7: applied at the concrete inputs 26 and 3. -/
theorem get_charform_error_iff_witness :
    get_charform (26 : ℕ) = none ∧ get_charform (3 : ℕ) = some 'd' := by
  constructor
  · exact (get_charform_error_iff.1 26).2 (by decide)
  · simpa using get_charform_error_iff.2 3 (by decide)

/-- C9: decoding the single-letter encoding of any valid zero-based
column index `0 ≤ i ≤ 25` returns that index:
`get_numform (get_charform i) = i`. -/
theorem get_numform_get_charform (i : ℕ) (h : i ≤ 25) :
    ∃ c : Char, get_charform i = some c ∧ get_numform c = i := by
  refine ⟨Char.ofNat (97 + i), get_charform_lt i h, ?_⟩
  unfold get_numform
  have : (Char.ofNat (97 + i)).toNat = 97 + i := by
    interval_cases i <;> decide
  rw [this]; omega

/-- Witness for C9: the round trip at the concrete index 2. -/
theorem get_numform_get_charform_witness :
    ∃ c : Char, get_charform (2 : ℕ) = some c ∧ get_numform c = 2 :=
  get_numform_get_charform 2 (by decide)

-- ------------------------------------------------------------------
-- The base-26 string counter `str_incr`
-- ------------------------------------------------------------------

theorem char_toNat_ofNat (n : ℕ) (h : n < 55296) : (Char.ofNat n).toNat = n := by
  simp [Char.ofNat, Char.toNat, Nat.isValidChar, UInt32.isValidChar, h, Char.ofNatAux,
    UInt32.toNat]

theorem char_toNat_inj : Function.Injective Char.toNat :=
  StrictMono.injective (fun _ _ h => h)

theorem char_lt_iff (c d : Char) : c < d ↔ c.toNat < d.toNat := Iff.rfl

theorem char_le_iff (c d : Char) : c ≤ d ↔ c.toNat ≤ d.toNat := Iff.rfl

theorem strIncrNth_succ (base : List Char) (n : ℕ) :
    strIncrNth base (n + 1) =
      match strIncrNth base n with
      | none => none
      | some l =>
        if l = List.replicate l.length 'z' then none
        else some (str_incr_once l) := rfl

theorem valRev_incrRev (l : List Char) (hl : ∀ c ∈ l, lcLetter c)
    (hz : l ≠ List.replicate l.length 'z') :
    valRev (incrRev l) = valRev l + 1 ∧ (∀ c ∈ incrRev l, lcLetter c) ∧
      (incrRev l).length = l.length := by
  induction l with
  | nil => simp at hz
  | cons c r ih =>
    have hc : lcLetter c := hl c (List.mem_cons_self _ _)
    have hcn : 97 ≤ c.toNat ∧ c.toNat ≤ 122 := by
      obtain ⟨h1, h2⟩ := hc
      exact ⟨(char_le_iff _ _).mp h1, (char_le_iff _ _).mp h2⟩
    by_cases hlt : c < 'z'
    · have htn : c.toNat < 122 := (char_lt_iff _ _).mp hlt
      have hofn : (Char.ofNat (c.toNat + 1)).toNat = c.toNat + 1 :=
        char_toNat_ofNat _ (by omega)
      refine ⟨?_, ?_, ?_⟩
      · simp only [incrRev, if_pos hlt, valRev, hofn]
        omega
      · intro x hx
        simp only [incrRev, if_pos hlt, List.mem_cons] at hx
        rcases hx with h | h
        · subst h
          have ha : 'a'.toNat = 97 := by decide
          have hz' : 'z'.toNat = 122 := by decide
          exact ⟨(char_le_iff _ _).mpr (by rw [hofn, ha]; omega),
                 (char_le_iff _ _).mpr (by rw [hofn, hz']; omega)⟩
        · exact hl x (List.mem_cons_of_mem _ h)
      · simp [incrRev, if_pos hlt]
    · have hcz : c = 'z' := by
        apply char_toNat_inj
        have : c.toNat < 'z'.toNat ∨ c.toNat = 'z'.toNat ∨ 'z'.toNat < c.toNat :=
          Nat.lt_trichotomy _ _
        rcases this with h | h | h
        · exact absurd ((char_lt_iff _ _).mpr h) hlt
        · exact h
        · exfalso
          have : 'z'.toNat = 122 := by decide
          omega
      subst hcz
      have hrz : r ≠ List.replicate r.length 'z' := by
        intro h
        apply hz
        show 'z' :: r = List.replicate ('z' :: r).length 'z'
        rw [List.length_cons, List.replicate_succ, ← h]
      obtain ⟨ihv, ihl, ihlen⟩ := ih (fun x hx => hl x (List.mem_cons_of_mem _ hx)) hrz
      refine ⟨?_, ?_, ?_⟩
      · simp only [incrRev, if_neg hlt, valRev, ihv]
        have hzt : 'z'.toNat = 122 := by decide
        have ha : 'a'.toNat = 97 := by decide
        omega
      · intro x hx
        simp only [incrRev, if_neg hlt, List.mem_cons] at hx
        rcases hx with h | h
        · subst h; exact ⟨le_refl _, by decide⟩
        · exact ihl x h
      · simp [incrRev, if_neg hlt, ihlen]

theorem strVal_str_incr_once (l : List Char) (hl : ∀ c ∈ l, lcLetter c)
    (hz : l ≠ List.replicate l.length 'z') :
    strVal (str_incr_once l) = strVal l + 1 ∧
      (∀ c ∈ str_incr_once l, lcLetter c) ∧ (str_incr_once l).length = l.length := by
  have hl' : ∀ c ∈ l.reverse, lcLetter c := by
    intro c hc; exact hl c (List.mem_reverse.mp hc)
  have hz' : l.reverse ≠ List.replicate l.reverse.length 'z' := by
    intro h
    apply hz
    have := congrArg List.reverse h
    rw [List.reverse_reverse, List.reverse_replicate] at this
    simpa using this
  obtain ⟨hv, hmem, hlen⟩ := valRev_incrRev l.reverse hl' hz'
  refine ⟨?_, ?_, ?_⟩
  · unfold strVal str_incr_once
    rw [List.reverse_reverse, hv]
  · intro c hc
    exact hmem c (List.mem_reverse.mp hc)
  · unfold str_incr_once
    simp [hlen]

theorem strVal_eq_max_imp_zzz (l : List Char) (h3 : l.length = 3)
    (hl : ∀ c ∈ l, lcLetter c) (hv : strVal l = 17575) : l = ['z', 'z', 'z'] := by
  match l, h3 with
  | [a, b, c], _ =>
    have ha := hl a (by simp)
    have hb := hl b (by simp)
    have hc := hl c (by simp)
    have hza : 'z'.toNat = 122 := by decide
    have hba : 'a'.toNat = 97 := by decide
    have bnd : ∀ x : Char, lcLetter x → 97 ≤ x.toNat ∧ x.toNat ≤ 122 := by
      intro x hx
      exact ⟨by rw [← hba]; exact (char_le_iff _ _).mp hx.1,
             by rw [← hza]; exact (char_le_iff _ _).mp hx.2⟩
    have hva : strVal [a, b, c] =
        (c.toNat - 97) + 26 * ((b.toNat - 97) + 26 * (a.toNat - 97)) := by
      simp [strVal, valRev]
    rw [hva] at hv
    obtain ⟨ha1, ha2⟩ := bnd a ha
    obtain ⟨hb1, hb2⟩ := bnd b hb
    obtain ⟨hc1, hc2⟩ := bnd c hc
    have e1 : a.toNat = 122 := by omega
    have e2 : b.toNat = 122 := by omega
    have e3 : c.toNat = 122 := by omega
    have : ∀ x : Char, x.toNat = 122 → x = 'z' := by
      intro x hx
      apply char_toNat_inj
      rw [hx, hza]
    rw [this a e1, this b e2, this c e3]

theorem strIncrNth_lt (n : ℕ) (h : n ≤ 17575) :
    ∃ l, strIncrNth MULTCOL_COUNT_BASE n = some l ∧ l.length = 3 ∧
      (∀ c ∈ l, lcLetter c) ∧ strVal l = n := by
  induction n with
  | zero =>
    refine ⟨['a', 'a', 'a'], rfl, rfl, ?_, by decide⟩
    intro c hc
    simp at hc
    subst hc
    decide
  | succ n ih =>
    obtain ⟨l, hsome, hlen, hmem, hval⟩ := ih (by omega)
    have hz : l ≠ List.replicate l.length 'z' := by
      intro hrep
      have : l = ['z', 'z', 'z'] := by
        rw [hrep, hlen]; rfl
      rw [this] at hval
      have : strVal ['z', 'z', 'z'] = 17575 := by decide
      omega
    obtain ⟨hv1, hm1, hl1⟩ := strVal_str_incr_once l hmem hz
    refine ⟨str_incr_once l, ?_, by rw [hl1, hlen], hm1, by rw [hv1, hval]⟩
    rw [strIncrNth_succ, hsome]
    exact if_neg hz

/-- C8: starting from `'aaa'`, the generator `str_incr` yields exactly
17576 identifiers, the `n`-th being the three-letter base-26 encoding of
`n` (hence all distinct and in base-26 order, from `'aaa'` at 0 up to
`'zzz'` at 17575), and requesting any identifier beyond the 17576-th
raises `ValueError` (modelled as `none`). -/
theorem str_incr_sequence :
    (∀ n : ℕ, n < 17576 →
       ∃ l, strIncrNth MULTCOL_COUNT_BASE n = some l ∧ l.length = 3 ∧
         (∀ c ∈ l, lcLetter c) ∧ strVal l = n) ∧
    (∀ m : ℕ, 17576 ≤ m → strIncrNth MULTCOL_COUNT_BASE m = none) := by
  have hstep : ∀ k : ℕ, strIncrNth MULTCOL_COUNT_BASE k = none →
      strIncrNth MULTCOL_COUNT_BASE (k + 1) = none := by
    intro k hk
    rw [strIncrNth_succ, hk]
  have h17576 : strIncrNth MULTCOL_COUNT_BASE 17576 = none := by
    obtain ⟨l, hsome, hlen, hmem, hval⟩ := strIncrNth_lt 17575 (le_refl _)
    have hzzz : l = ['z', 'z', 'z'] := strVal_eq_max_imp_zzz l hlen hmem hval
    have e : (17576 : ℕ) = 17575 + 1 := by norm_num
    rw [e, strIncrNth_succ, hsome, hzzz]
    rfl
  constructor
  · intro n hn
    exact strIncrNth_lt n (by omega)
  · intro m hm
    obtain ⟨k, rfl⟩ : ∃ k, m = 17576 + k := ⟨m - 17576, by omega⟩
    clear hm
    induction k with
    | zero => exact h17576
    | succ k ihk =>
      have e : 17576 + (k + 1) = (17576 + k) + 1 := by omega
      rw [e]
      exact hstep _ ihk

/-- Witness for C8: the 3rd identifier and the overflow at 17576,
obtained from the theorem. -/
theorem str_incr_sequence_witness :
    (∃ l, strIncrNth MULTCOL_COUNT_BASE 2 = some l ∧ l.length = 3 ∧
       (∀ c ∈ l, lcLetter c) ∧ strVal l = 2) ∧
    strIncrNth MULTCOL_COUNT_BASE 17576 = none :=
  ⟨str_incr_sequence.1 2 (by decide), str_incr_sequence.2 17576 (le_refl _)⟩

-- ------------------------------------------------------------------
-- Escaping (C5)
-- ------------------------------------------------------------------

theorem pyReplaceGo_single (p : Char) (r : List Char) :
    ∀ (n : ℕ) (l : List Char), l.length ≤ n →
      pyReplaceGo [p] r n l = l.flatMap (fun c => if c = p then r else [c]) := by
  intro n
  induction n with
  | zero =>
    intro l hl
    cases l with
    | nil => rfl
    | cons c rest => simp at hl
  | succ n ih =>
    intro l hl
    cases l with
    | nil => rfl
    | cons c rest =>
      have hrest : rest.length ≤ n := by
        simp only [List.length_cons] at hl
        omega
      by_cases hc : c = p
      · subst hc
        have hguard : ([c] ≠ ([] : List Char)) ∧ startsWithL [c] (c :: rest) = true := by
          refine ⟨by simp, ?_⟩
          simp [startsWithL]
        simp only [pyReplaceGo, if_pos hguard, List.flatMap_cons]
        simp [ih rest hrest]
      · have hguard : ¬(([p] ≠ ([] : List Char)) ∧ startsWithL [p] (c :: rest) = true) := by
          rintro ⟨-, hsw⟩
          simp [startsWithL] at hsw
          exact hc hsw.symm
        simp only [pyReplaceGo, if_neg hguard, List.flatMap_cons, if_neg hc]
        rw [ih rest hrest]
        rfl

theorem pyReplace_single (p : Char) (l : List Char) :
    pyReplace [p] ['\\', p] l = l.flatMap (escStep p) := by
  unfold pyReplace
  exact pyReplaceGo_single p ['\\', p] l.length l (le_refl _)

theorem pyReplaceGo_absent (p0 : Char) (ps r : List Char) :
    ∀ (n : ℕ) (l : List Char), l.length ≤ n → p0 ∉ l →
      pyReplaceGo (p0 :: ps) r n l = l := by
  intro n
  induction n with
  | zero =>
    intro l hl _
    cases l with
    | nil => rfl
    | cons c rest => simp at hl
  | succ n ih =>
    intro l hl hmem
    cases l with
    | nil => rfl
    | cons c rest =>
      have hrest : rest.length ≤ n := by
        simp only [List.length_cons] at hl
        omega
      have hne : c ≠ p0 := by
        intro h
        exact hmem (by rw [h]; exact List.mem_cons_self _ _)
      have hguard : ¬((p0 :: ps ≠ ([] : List Char)) ∧
          startsWithL (p0 :: ps) (c :: rest) = true) := by
        rintro ⟨-, hsw⟩
        simp only [startsWithL, Bool.and_eq_true, beq_iff_eq] at hsw
        exact hne hsw.1.symm
      simp only [pyReplaceGo, if_neg hguard]
      rw [ih rest hrest (fun h => hmem (List.mem_cons_of_mem _ h))]

theorem pyReplace_absent (p0 : Char) (ps r l : List Char) (h : p0 ∉ l) :
    pyReplace (p0 :: ps) r l = l :=
  pyReplaceGo_absent p0 ps r l.length l (le_refl _) h

theorem escFrag_comp (c : Char) :
    ((((((escStep '&' c).flatMap (escStep '$')).flatMap (escStep '%')).flatMap
      (escStep '#')).flatMap (escStep '_')).flatMap (escStep '\x7b')).flatMap
      (escStep '\x7d') = latexescapeFrag c := by
  by_cases h1 : c = '&'
  · subst h1; decide
  by_cases h2 : c = '$'
  · subst h2; decide
  by_cases h3 : c = '%'
  · subst h3; decide
  by_cases h4 : c = '#'
  · subst h4; decide
  by_cases h5 : c = '_'
  · subst h5; decide
  by_cases h6 : c = '\x7b'
  · subst h6; decide
  by_cases h7 : c = '\x7d'
  · subst h7; decide
  have h7' : c ∉ sevenChars := by
    simp only [sevenChars, List.mem_cons, List.not_mem_nil, or_false]
    push_neg
    exact ⟨h1, h2, h3, h4, h5, h6, h7⟩
  simp [escStep, latexescapeFrag, h1, h2, h3, h4, h5, h6, h7, h7']

theorem sevenFlat_eq (l : List Char) :
    ((((((l.flatMap (escStep '&')).flatMap (escStep '$')).flatMap
      (escStep '%')).flatMap (escStep '#')).flatMap (escStep '_')).flatMap
      (escStep '\x7b')).flatMap (escStep '\x7d') = l.flatMap latexescapeFrag := by
  induction l with
  | nil => rfl
  | cons c rest ih =>
    simp only [List.flatMap_cons, List.flatMap_append]
    rw [ih]
    congr 1
    exact escFrag_comp c

theorem arrow_not_mem_frag (l : List Char) (h : 'â' ∉ l) :
    'â' ∉ l.flatMap latexescapeFrag := by
  intro hmem
  rw [List.mem_flatMap] at hmem
  obtain ⟨a, ha, hin⟩ := hmem
  unfold latexescapeFrag at hin
  by_cases h7 : a ∈ sevenChars
  · rw [if_pos h7] at hin
    simp only [List.mem_cons, List.not_mem_nil, or_false] at hin
    rcases hin with h1 | h1
    · exact absurd h1 (by decide)
    · rw [← h1] at h7
      exact absurd h7 (by decide)
  · rw [if_neg h7] at hin
    simp only [List.mem_cons, List.not_mem_nil, or_false] at hin
    subst hin
    exact h ha

theorem latexescape_eq (l : List Char) (hl : 'â' ∉ l) :
    latexescape l = l.flatMap latexescapeFrag := by
  simp only [latexescape, pyReplace_single]
  rw [sevenFlat_eq]
  exact pyReplace_absent _ _ _ _ (arrow_not_mem_frag l hl)

theorem allEscAux_cons (c p a : Char) (l : List Char) :
    allEscAux c p (a :: l) = (((a != c) || (p == '\\')) && allEscAux c a l) := rfl

theorem allEscAux_flatMap (c : Char) (hc : c ≠ '\\')
    (hne : ∀ a : Char, a ∉ sevenChars → a ≠ c) :
    ∀ (l : List Char) (p : Char), allEscAux c p (l.flatMap latexescapeFrag) = true := by
  intro l
  induction l with
  | nil => intro p; rfl
  | cons a rest ih =>
    intro p
    by_cases h7 : a ∈ sevenChars
    · have hfrag : (a :: rest).flatMap latexescapeFrag =
          '\\' :: a :: rest.flatMap latexescapeFrag := by
        simp [latexescapeFrag, if_pos h7]
      rw [hfrag, allEscAux_cons, allEscAux_cons, ih a]
      have hbs : ('\\' != c) = true := bne_iff_ne.mpr (Ne.symm hc)
      simp [hbs]
    · have hfrag : (a :: rest).flatMap latexescapeFrag =
          a :: rest.flatMap latexescapeFrag := by
        simp [latexescapeFrag, if_neg h7]
      rw [hfrag, allEscAux_cons, ih a]
      have hac : (a != c) = true := bne_iff_ne.mpr (hne a h7)
      simp [hac]

/-- C5 counterexample: on input `"~"`, `latexescape` (the escaping
function used by `write_text`) leaves the reserved character `~`
entirely untouched — `latexescape "~" = "~"` — so the output contains
an unescaped instance of a reserved character from the input, refuting
the claim for the full reserved set `& $ % # _ { } ~ ^ \`. -/
theorem latexescape_tilde_counterexample :
    '~' ∈ reservedChars ∧ latexescape ['~'] = ['~'] ∧
      allEsc '~' (latexescape ['~']) = false := by decide

/-- C5 (amended): `latexescape` rewrites every character of the smaller
reserved set `& $ % # _ { }` — on input free of the arrow sequence its
output is the character-wise image under `latexescapeFrag`, and no
unescaped instance of any of those seven characters remains — while all
other characters (in particular `~ ^ \`) pass through unchanged. -/
theorem latexescape_escapes_seven (l : List Char) (hl : 'â' ∉ l) :
    latexescape l = l.flatMap latexescapeFrag ∧
    (∀ c ∈ sevenChars, allEsc c (latexescape l) = true) ∧
    (∀ c : Char, c ∉ sevenChars → latexescapeFrag c = [c]) := by
  have hnf := latexescape_eq l hl
  refine ⟨hnf, ?_, ?_⟩
  · intro c hcmem
    rw [hnf]
    unfold allEsc
    fin_cases hcmem
    · exact allEscAux_flatMap '&' (by decide)
        (fun a ha heq => ha (by rw [heq]; decide)) l ' '
    · exact allEscAux_flatMap '$' (by decide)
        (fun a ha heq => ha (by rw [heq]; decide)) l ' '
    · exact allEscAux_flatMap '%' (by decide)
        (fun a ha heq => ha (by rw [heq]; decide)) l ' '
    · exact allEscAux_flatMap '#' (by decide)
        (fun a ha heq => ha (by rw [heq]; decide)) l ' '
    · exact allEscAux_flatMap '_' (by decide)
        (fun a ha heq => ha (by rw [heq]; decide)) l ' '
    · exact allEscAux_flatMap '\x7b' (by decide)
        (fun a ha heq => ha (by rw [heq]; decide)) l ' '
    · exact allEscAux_flatMap '\x7d' (by decide)
        (fun a ha heq => ha (by rw [heq]; decide)) l ' '
  · intro c hc
    unfold latexescapeFrag
    rw [if_neg hc]

/-- Witness for C5 (amended): evaluated at the concrete input `"&~"`. -/
theorem latexescape_escapes_seven_witness :
    latexescape ['&', '~'] = ['\\', '&', '~'] ∧
      allEsc '&' (latexescape ['&', '~']) = true := by
  obtain ⟨h1, h2, -⟩ := latexescape_escapes_seven ['&', '~'] (by decide)
  exact ⟨by rw [h1]; decide, h2 '&' (by decide)⟩

-- ------------------------------------------------------------------
-- repack_row (C3, C10)
-- ------------------------------------------------------------------

theorem pySplitGo_ne_nil (sep : List Char) :
    ∀ (n : ℕ) (acc l : List Char), pySplitGo sep n acc l ≠ [] := by
  intro n
  induction n with
  | zero =>
    intro acc l
    cases l <;> simp [pySplitGo]
  | succ n ih =>
    intro acc l
    cases l with
    | nil => simp [pySplitGo]
    | cons c rest =>
      by_cases h : sep ≠ [] ∧ startsWithL sep (c :: rest) = true
      · simp [pySplitGo, if_pos h]
      · simp only [pySplitGo, if_neg h]
        exact ih _ _

theorem decodeMult_ne_nil (s : String) : decodeMult s ≠ [] := by
  unfold decodeMult pySplit
  intro h
  rw [List.map_eq_nil] at h
  exact pySplitGo_ne_nil _ _ _ _ h

theorem foldl_max_init (l : List ℕ) : ∀ a : ℕ, a ≤ l.foldl max a := by
  induction l with
  | nil => intro a; simp
  | cons y ys ih =>
    intro a
    rw [List.foldl_cons]
    exact le_trans (le_max_left a y) (ih _)

theorem foldl_max_mem (l : List ℕ) : ∀ (a x : ℕ), x ∈ l → x ≤ l.foldl max a := by
  induction l with
  | nil => intro a x h; simp at h
  | cons y ys ih =>
    intro a x h
    rw [List.foldl_cons]
    rcases List.mem_cons.mp h with h1 | h1
    · subst h1
      exact le_trans (le_max_right a x) (foldl_max_init ys _)
    · exact ih _ x h1

theorem list_max_ge (l : List ℕ) (m : ℕ) (h : list_max l = some m) :
    ∀ x ∈ l, x ≤ m := by
  cases l with
  | nil => simp [list_max] at h
  | cons y ys =>
    simp only [list_max, Option.some_inj] at h
    subst h
    intro x hx
    rcases List.mem_cons.mp hx with h1 | h1
    · subst h1
      exact foldl_max_init ys _
    · exact foldl_max_mem ys y x h1

theorem get?_eq_some_getD {α : Type} [Inhabited α] (l : List α) (i : ℕ)
    (h : i < l.length) : l.get? i = some (l.getD i default) := by
  cases e : l.get? i with
  | none =>
    rw [List.get?_eq_none] at e
    omega
  | some x =>
    rw [List.getD_eq_get?, e]
    rfl

theorem getD_replicate_empty :
    ∀ (k j : ℕ), (List.replicate k ("" : String)).getD j "" = "" := by
  intro k
  induction k with
  | zero => intro j; cases j <;> rfl
  | succ k ih =>
    intro j
    cases j with
    | zero => rfl
    | succ j => exact ih j

theorem pad_getD (li : List String) (m r : ℕ) :
    (li ++ List.replicate (m - li.length) "").getD r "" = li.getD r "" := by
  by_cases h : r < li.length
  · rw [List.getD_append _ _ _ _ h]
  · have h1 : li.getD r "" = "" := List.getD_eq_default _ _ (by omega)
    rw [h1, List.getD_append_right _ _ _ _ (by omega), getD_replicate_empty]

theorem getD_zero_eq_headD (l : List String) : l.getD 0 "" = l.headD "" := by
  cases l <;> rfl

theorem getD_succ_eq_tail_getD (l : List String) (r : ℕ) :
    l.getD (r + 1) "" = l.tail.getD r "" := by
  cases l <;> rfl

theorem headsTails_eq (ls : List (List String)) (h : ∀ l ∈ ls, l ≠ []) :
    headsTails ls =
      some (ls.map (fun l => l.headD ""), ls.map List.tail) := by
  induction ls with
  | nil => rfl
  | cons x rest ih =>
    cases x with
    | nil => exact absurd rfl (h [] (List.mem_cons_self _ _))
    | cons a t =>
      simp only [headsTails,
        ih (fun l hl => h l (List.mem_cons_of_mem _ hl))]
      rfl

theorem pyZipStarGo_rect :
    ∀ (m : ℕ) (ls : List (List String)), ls ≠ [] → (∀ l ∈ ls, l.length = m) →
      pyZipStarGo m ls =
        (List.range m).map (fun r => ls.map (fun l => l.getD r "")) := by
  intro m
  induction m with
  | zero => intro ls _ _; rfl
  | succ m ih =>
    intro ls hne hlen
    have hnn : ∀ l ∈ ls, l ≠ [] := by
      intro l hl hnil
      have := hlen l hl
      rw [hnil] at this
      simp at this
    have htl : ∀ t ∈ ls.map List.tail, t.length = m := by
      intro t ht
      rw [List.mem_map] at ht
      obtain ⟨l, hl, rfl⟩ := ht
      have := hlen l hl
      rw [List.length_tail, this]
      omega
    have htne : ls.map List.tail ≠ [] := by
      intro h
      rw [List.map_eq_nil] at h
      exact hne h
    simp only [pyZipStarGo, headsTails_eq ls hnn, ih (ls.map List.tail) htne htl]
    rw [List.range_succ_eq_map, List.map_cons, List.map_map]
    congr 1
    · congr 1
      funext l
      exact (getD_zero_eq_headD l).symm
    · congr 1
      funext r
      simp only [Function.comp_apply, List.map_map]
      congr 1
      funext l
      simp only [Function.comp_apply]
      exact (getD_succ_eq_tail_getD l r).symm

theorem pyZipStar_rect (ls : List (List String)) (m : ℕ) (hne : ls ≠ [])
    (hlen : ∀ l ∈ ls, l.length = m) :
    pyZipStar ls = (List.range m).map (fun r => ls.map (fun l => l.getD r "")) := by
  unfold pyZipStar
  rw [if_neg hne]
  have hh : (ls.headD []).length = m := by
    cases ls with
    | nil => exact absurd rfl hne
    | cons x rest => exact hlen x (List.mem_cons_self _ _)
  rw [hh]
  exact pyZipStarGo_rect m ls hne hlen

theorem mapM_some_of_forall {α β : Type} (l : List α) (f : α → Option β)
    (g : α → β) (h : ∀ a ∈ l, f a = some (g a)) :
    l.mapM f = some (l.map g) := by
  induction l with
  | nil => rfl
  | cons a rest ih =>
    rw [List.mapM_cons, h a (List.mem_cons_self _ _),
      ih (fun x hx => h x (List.mem_cons_of_mem _ hx))]
    rfl

/-- C10: invoking `repack_row` on a row holding exactly one cell whose
content is the empty string deletes that cell by the
trailing-placeholder rule and then takes `max` over an empty
collection, so the call raises an unhandled `ValueError` (modelled as
`none`) and appends no rows: at least one cell with content must remain
after dropping an empty trailing cell. -/
theorem repack_row_single_empty_cell (numcols : ℕ) (pict : Bool) (pw : ℚ)
    (cell : TabCell) (tl ad : String) (h : cell.content = "") :
    repack_row numcols pict pw ⟨[cell], tl, ad⟩ = ([], none) := by
  simp [repack_row, h, list_max]

/-- Witness for C10: applied at a concrete one-cell row with empty
content. -/
theorem repack_row_single_empty_cell_witness :
    repack_row 1 false 0 ⟨[⟨'a', 1, "", ""⟩], "", ""⟩ = ([], none) :=
  repack_row_single_empty_cell 1 false 0 ⟨'a', 1, "", ""⟩ "" "" rfl

theorem getD_map_getD (ls : List (List String)) (i r : ℕ) :
    (ls.map (fun l => l.getD r "")).getD i "" = (ls.getD i []).getD r "" := by
  induction ls generalizing i with
  | nil => cases i <;> rfl
  | cons x rest ih =>
    cases i with
    | zero => rfl
    | succ i => exact ih i

theorem getD_map_pad_getD (bare : List (List String)) (m i r : ℕ) :
    ((bare.map (fun l => l ++ List.replicate (m - l.length) "")).getD i
      []).getD r "" = (bare.getD i []).getD r "" := by
  induction bare generalizing i with
  | nil => cases i <;> rfl
  | cons x rest ih =>
    cases i with
    | zero => exact pad_getD x m r
    | succ i => exact ih i

theorem colsEqu_content (bare : List (List String)) (m i r : ℕ) :
    ((bare.map (fun l => l ++ List.replicate (m - l.length) "")).map
      (fun l => l.getD r "")).getD i "" = (bare.getD i []).getD r "" := by
  rw [getD_map_getD, getD_map_pad_getD]

theorem repackNewRow_eq (cells : List TabCell) (trow : List String)
    (lastCell : ℕ) (tl : String) (h1 : lastCell ≤ cells.length)
    (h2 : lastCell ≤ trow.length) (h3 : lastCell ≤ 26) :
    repackNewRow cells trow lastCell tl =
      some (TabRow.mk ((List.range lastCell).map (fun i =>
        TabCell.mk (Char.ofNat (97 + i)) ((cells.getD i default).span)
          ((cells.getD i default).head) (trow.getD i ""))) tl "") := by
  unfold repackNewRow
  have hh : ∀ i ∈ List.range lastCell,
      (do
        let oc ← cells.get? i
        let ch ← get_charform (i : ℤ)
        let cont ← trow.get? i
        pure (TabCell.mk ch oc.span oc.head cont) : Option TabCell) =
      some (TabCell.mk (Char.ofNat (97 + i)) ((cells.getD i default).span)
        ((cells.getD i default).head) (trow.getD i "")) := by
    intro i hi
    rw [List.mem_range] at hi
    rw [get?_eq_some_getD cells i (by omega),
        get?_eq_some_getD trow i (by omega),
        get_charform_lt i (by omega)]
    rfl
  rw [mapM_some_of_forall _ _ _ hh]
  rfl

theorem repackRows_eq (cells : List TabCell) (T : ℕ → List String)
    (lastCell m : ℕ) (tl : String) (h1 : lastCell ≤ cells.length)
    (h3 : lastCell ≤ 26) (h2 : ∀ r, r < m → lastCell ≤ (T r).length) :
    repackRows cells ((List.range m).map T) lastCell m tl =
      some ((List.range m).map (fun r =>
        TabRow.mk ((List.range lastCell).map (fun i =>
          TabCell.mk (Char.ofNat (97 + i)) ((cells.getD i default).span)
            ((cells.getD i default).head) ((T r).getD i ""))) tl "")) := by
  unfold repackRows
  apply mapM_some_of_forall
  intro r hr
  rw [List.mem_range] at hr
  rw [List.get?_map, List.get?_range hr]
  simp only [Option.map_some']
  exact repackNewRow_eq cells (T r) lastCell tl h1 (h2 r hr) h3

/-- C3: for a row repacked in multi-row-cell mode (no pending picture,
non-empty last cell, cell count matching `numcols ≤ 26`), `repack_row`
produces exactly `m = max(lengths)` new rows, where `lengths` are the
sub-value counts of the cells' decoded contents; cell `i` of new row
`r` holds sub-value `r` of original cell `i`, missing sub-values being
filled with empty strings at the end (bottom padding, via `getD`). -/
theorem repack_row_transpose (numcols : ℕ) (pw : ℚ) (tabrow : TabRow) (m : ℕ)
    (hne : tabrow.cells ≠ [])
    (hlast : ∀ lc, tabrow.cells.getLast? = some lc → lc.content ≠ "")
    (hcols : numcols = tabrow.cells.length)
    (h26 : numcols ≤ 26)
    (hm : list_max ((tabrow.cells.map (fun c => decodeMult c.content)).map
        (fun l => l.length)) = some m) :
    repack_row numcols false pw tabrow =
      ([], some ⟨(List.range m).map (fun r =>
          TabRow.mk ((List.range numcols).map (fun i =>
            TabCell.mk (Char.ofNat (97 + i))
              ((tabrow.cells.getD i default).span)
              ((tabrow.cells.getD i default).head)
              (((tabrow.cells.map (fun c => decodeMult c.content)).getD i
                []).getD r "")))
            tabrow.tail (if r = m - 1 then tabrow.addit else "")),
        numcols, none, false⟩) := by
  obtain ⟨lastc, hlastc⟩ : ∃ lc, tabrow.cells.getLast? = some lc := by
    cases e : tabrow.cells.getLast? with
    | none =>
      rw [List.getLast?_eq_none_iff] at e
      exact absurd e hne
    | some lc => exact ⟨lc, rfl⟩
  have hlc : lastc.content ≠ "" := hlast lastc hlastc
  have hm1 : 1 ≤ m := by
    obtain ⟨c0, cs, hc⟩ : ∃ c0 cs, tabrow.cells = c0 :: cs :=
      List.exists_cons_of_ne_nil hne
    have hmem : (decodeMult c0.content).length ∈
        ((tabrow.cells.map (fun c => decodeMult c.content)).map
          (fun l => l.length)) := by
      simp only [hc, List.map_cons]
      exact List.mem_cons_self _ _
    have hle := list_max_ge _ m hm _ hmem
    have hpos : 0 < (decodeMult c0.content).length :=
      List.length_pos.mpr (decodeMult_ne_nil _)
    omega
  have hpadlen : ∀ l ∈ (tabrow.cells.map (fun c => decodeMult c.content)).map
      (fun l => l ++ List.replicate (m - l.length) ""), l.length = m := by
    intro l hl
    rw [List.mem_map] at hl
    obtain ⟨li, hli, rfl⟩ := hl
    have hle : li.length ≤ m :=
      list_max_ge _ m hm _ (List.mem_map_of_mem _ hli)
    rw [List.length_append, List.length_replicate]
    omega
  have hbne : (tabrow.cells.map (fun c => decodeMult c.content)).map
      (fun l => l ++ List.replicate (m - l.length) "") ≠ [] := by
    simp only [ne_eq, List.map_eq_nil_iff]
    exact hne
  have hzip := pyZipStar_rect _ m hbne hpadlen
  have hTlen : ∀ r, r < m → numcols ≤
      (((tabrow.cells.map (fun c => decodeMult c.content)).map
        (fun l => l ++ List.replicate (m - l.length) "")).map
        (fun l => l.getD r "")).length := by
    intro r _
    simp only [List.length_map]
    omega
  have hrows := repackRows_eq tabrow.cells
      (fun r => ((tabrow.cells.map (fun c => decodeMult c.content)).map
        (fun l => l ++ List.replicate (m - l.length) "")).map
        (fun l => l.getD r ""))
      numcols m tabrow.tail (by omega) h26 hTlen
  have hsplit : List.range m = List.range (m - 1) ++ [m - 1] := by
    conv_lhs => rw [show m = (m - 1) + 1 by omega]
    exact List.range_succ (m - 1)
  simp only [repack_row, hlastc, if_neg hlc, hm, hzip, hrows,
    Bool.false_eq_true, false_and, ite_false, ite_true, colsEqu_content]
  rw [hsplit]
  simp only [List.map_append, List.map_cons, List.map_nil,
    List.getLast?_concat, List.dropLast_concat]
  simp only [Prod.mk.injEq, Option.some.injEq, RepackOut.mk.injEq, true_and,
    and_true]
  congr 1
  · apply List.map_congr_left
    intro r hr
    rw [List.mem_range] at hr
    rw [if_neg (show ¬(r = m - 1) by omega)]

/-- Witness for C3: a 2-column multi-row cell row, cell `a` holding the
sub-values `x1, x2` (with the trailing separator appended by
`end_paragraph`), cell `b` holding `y1`; repacking yields 2 rows with
`y1` bottom-padded by an empty content. -/
theorem repack_row_transpose_witness :
    repack_row 2 false 0
        ⟨[⟨'a', 1, "{l}", "x1&&x2&&"⟩, ⟨'b', 1, "{l}", "y1"⟩], "\\\\ ", ""⟩ =
      ([], some ⟨[⟨[⟨'a', 1, "{l}", "x1"⟩, ⟨'b', 1, "{l}", "y1"⟩], "\\\\ ", ""⟩,
                  ⟨[⟨'a', 1, "{l}", "x2"⟩, ⟨'b', 1, "{l}", ""⟩], "\\\\ ", ""⟩],
        2, none, false⟩) := by
  have hlast : ∀ lc,
      ([⟨'a', 1, "{l}", "x1&&x2&&"⟩,
        ⟨'b', 1, "{l}", "y1"⟩] : List TabCell).getLast? = some lc →
      lc.content ≠ "" := by
    intro lc h
    have e : ([⟨'a', 1, "{l}", "x1&&x2&&"⟩,
        ⟨'b', 1, "{l}", "y1"⟩] : List TabCell).getLast? =
        some ⟨'b', 1, "{l}", "y1"⟩ := rfl
    have he := Option.some_inj.mp (e.symm.trans h)
    rw [← he]
    decide
  have h := repack_row_transpose 2 0
    ⟨[⟨'a', 1, "{l}", "x1&&x2&&"⟩, ⟨'b', 1, "{l}", "y1"⟩], "\\\\ ", ""⟩ 2
    (by decide) hlast (by decide) (by decide) (by decide)
  rw [h]
  decide

-- ------------------------------------------------------------------
-- calc_latex_widths: the four-pass order (C1)
-- ------------------------------------------------------------------

theorem get_charform_isSome (x : ℤ) (h1 : x ≤ 25) (h2 : -97 ≤ x) :
    ∃ c, get_charform x = some c := by
  unfold get_charform
  rw [if_neg (by omega), if_pos (by omega)]
  exact ⟨_, rfl⟩

theorem cellMeasureInstrs_no_fix (pw : ℚ) (cell : TabCell) :
    ∀ ins ∈ (cellMeasureInstrs pw cell).1, isFixInstr ins = false := by
  intro ins hins
  unfold cellMeasureInstrs at hins
  split at hins
  · simp at hins
  · simp only [List.mem_map] at hins
    obtain ⟨p, -, rfl⟩ := hins
    rfl

theorem cellMeasureInstrs_text (pw : ℚ) (cell : TabCell)
    (hpic : cell.content.startsWith "\\grmkpicture" = false) :
    cellMeasureInstrs pw cell =
      ((pySplit SEPARATION_PAT.data cell.content.data).map
        (fun p => Instr.textneedwidth (String.mk p)), true) := by
  unfold cellMeasureInstrs
  rw [if_neg (by simp [hpic])]

theorem lcLetter_toNat (c : Char) (h : lcLetter c) :
    97 ≤ c.toNat ∧ c.toNat ≤ 122 := by
  obtain ⟨h1, h2⟩ := h
  have e1 := (char_le_iff 'a' c).mp h1
  have e2 := (char_le_iff c 'z').mp h2
  have : 'a'.toNat = 97 := by decide
  have : 'z'.toNat = 122 := by decide
  omega

theorem cellCalcInstrs_ok (pw : ℚ) (cell : TabCell)
    (hw : lcLetter cell.colchar ∧ cell.span ≤ 26)
    (hpic : cell.span ≠ 0 → cell.content.startsWith "\\grmkpicture" = false) :
    (cellCalcInstrs pw cell).2 = true ∧
      ∀ ins ∈ (cellCalcInstrs pw cell).1, isFixInstr ins = false := by
  unfold cellCalcInstrs
  by_cases h0 : cell.span = 0
  · rw [if_pos h0]
    exact ⟨rfl, by intro ins h; simp at h⟩
  rw [if_neg h0]
  have hms := cellMeasureInstrs_text pw cell (hpic h0)
  have hnof := cellMeasureInstrs_no_fix pw cell
  rw [hms] at hnof
  simp only at hnof
  simp only [hms]
  by_cases h1 : cell.span = 1
  · rw [if_pos h1]
    refine ⟨rfl, ?_⟩
    intro ins hins
    rw [List.mem_append] at hins
    rcases hins with h | h
    · exact hnof ins h
    · simp only [List.mem_cons, List.not_mem_nil, or_false] at h
      subst h
      rfl
  rw [if_neg h1]
  have hnum := lcLetter_toNat cell.colchar hw.1
  have hspan := hw.2
  have harg1 : get_numform cell.colchar - cell.span + 1 ≤ 25 := by
    unfold get_numform
    omega
  have harg2 : -97 ≤ get_numform cell.colchar - cell.span + 1 := by
    unfold get_numform
    omega
  obtain ⟨c, hc⟩ := get_charform_isSome _ harg1 harg2
  rw [hc]
  refine ⟨rfl, ?_⟩
  intro ins hins
  rw [List.mem_append] at hins
  rcases hins with h | h
  · exact hnof ins h
  · simp only [List.mem_cons, List.not_mem_nil, or_false] at h
    subst h
    rfl

theorem rowsColInstrs_ok (pw : ℚ) (col : ℕ) (rows : List TabRow)
    (hlen : ∀ row ∈ rows, col < row.cells.length)
    (hw : ∀ row ∈ rows, ∀ cell ∈ row.cells,
      lcLetter cell.colchar ∧ cell.span ≤ 26)
    (hpic : ∀ row ∈ rows, ∀ cell ∈ row.cells,
      cell.span ≠ 0 → cell.content.startsWith "\\grmkpicture" = false) :
    (rowsColInstrs pw col rows).2 = true ∧
      ∀ ins ∈ (rowsColInstrs pw col rows).1, isFixInstr ins = false := by
  induction rows with
  | nil =>
    exact ⟨rfl, by intro ins h; simp [rowsColInstrs] at h⟩
  | cons row rest ih =>
    have hrl := hlen row (List.mem_cons_self _ _)
    have hget := get?_eq_some_getD row.cells col hrl
    have hmem : row.cells.getD col default ∈ row.cells := by
      rw [List.getD_eq_get?]
      cases e : row.cells.get? col with
      | none =>
        rw [List.get?_eq_none] at e
        omega
      | some x =>
        simp only [Option.getD_some]
        exact List.get?_mem e
    obtain ⟨okc, noc⟩ := cellCalcInstrs_ok pw _
      (hw row (List.mem_cons_self _ _) _ hmem)
      (hpic row (List.mem_cons_self _ _) _ hmem)
    obtain ⟨okr, nor⟩ := ih (fun r hr => hlen r (List.mem_cons_of_mem _ hr))
      (fun r hr => hw r (List.mem_cons_of_mem _ hr))
      (fun r hr => hpic r (List.mem_cons_of_mem _ hr))
    rcases hcc : cellCalcInstrs pw (row.cells.getD col default) with ⟨is1, ok1⟩
    rw [hcc] at okc noc
    simp only at okc
    subst okc
    rcases hrr : rowsColInstrs pw col rest with ⟨is2, ok2⟩
    rw [hrr] at okr nor
    simp only at okr
    subst okr
    have heq : rowsColInstrs pw col (row :: rest) = (is1 ++ is2, true) := by
      simp only [rowsColInstrs, hget, hcc, hrr]
    rw [heq]
    refine ⟨rfl, ?_⟩
    intro ins hins
    simp only [List.mem_append] at hins
    rcases hins with h | h
    · exact noc ins h
    · exact nor ins h

theorem pass1Go_ok (pw : ℚ) (rows : List TabRow)
    (hw : ∀ row ∈ rows, ∀ cell ∈ row.cells,
      lcLetter cell.colchar ∧ cell.span ≤ 26)
    (hpic : ∀ row ∈ rows, ∀ cell ∈ row.cells,
      cell.span ≠ 0 → cell.content.startsWith "\\grmkpicture" = false) :
    ∀ cols : List ℕ, (∀ c ∈ cols, c ≤ 25) →
    (∀ row ∈ rows, ∀ c ∈ cols, c < row.cells.length) →
    (pass1Go pw rows cols).2.2 = true ∧
    (pass1Go pw rows cols).2.1 = cols.map (fun i => Char.ofNat (97 + i)) ∧
    (pass1Go pw rows cols).1.filter isFixInstr =
      cols.map (fun i => Instr.firstfix (Char.ofNat (97 + i))) := by
  intro cols
  induction cols with
  | nil => exact fun _ _ => ⟨rfl, rfl, rfl⟩
  | cons col cols ih =>
    intro hcols hlen
    have hch := get_charform_lt col (hcols col (List.mem_cons_self _ _))
    obtain ⟨okr, nor⟩ := rowsColInstrs_ok pw col rows
      (fun r hr => hlen r hr col (List.mem_cons_self _ _)) hw hpic
    obtain ⟨ok2, chs2, fil2⟩ := ih (fun c hc => hcols c (List.mem_cons_of_mem _ hc))
      (fun r hr c hc => hlen r hr c (List.mem_cons_of_mem _ hc))
    rcases hrr : rowsColInstrs pw col rows with ⟨is1, ok1⟩
    rw [hrr] at okr nor
    simp only at okr
    subst okr
    rcases hp : pass1Go pw rows cols with ⟨is2, chs, okx⟩
    rw [hp] at ok2 chs2 fil2
    simp only at ok2 chs2 fil2
    have heq : pass1Go pw rows (col :: cols) =
        (is1 ++ [Instr.firstfix (Char.ofNat (97 + col))] ++ is2,
         Char.ofNat (97 + col) :: chs, okx) := by
      simp only [pass1Go, hch, hrr, hp]
    rw [heq]
    refine ⟨ok2, ?_, ?_⟩
    · simp only [List.map_cons]
      rw [chs2]
    · simp only [List.map_cons, List.filter_append]
      rw [fil2]
      have h1 : is1.filter isFixInstr = [] := by
        rw [List.filter_eq_nil_iff]
        intro a ha
        simp [nor a ha]
      rw [h1]
      rfl

theorem spanLoopCells_no_fix (cells : List TabCell) :
    ∀ (n : ℕ), ∀ ins ∈ (spanLoopCells n cells).1, isFixInstr ins = false := by
  induction cells with
  | nil => intro n ins h; simp [spanLoopCells] at h
  | cons cell rest ih =>
    intro n ins h
    unfold spanLoopCells at h
    split at h
    · rcases e0 : strIncrNth MULTCOL_COUNT_BASE n with _ | idStr
      · rw [e0] at h; simp at h
      rw [e0] at h
      rcases e1 : get_charform (get_numform cell.colchar - cell.span + 1)
        with _ | ch
      · rw [e1] at h; simp at h
      rw [e1] at h
      rcases e2 : spanLoopCells (n + 1) rest with ⟨is2, n2, ok2⟩
      simp only [e2] at h
      simp only [List.mem_cons] at h
      rcases h with h | h
      · subst h; rfl
      · exact ih (n + 1) ins (by rw [e2]; exact h)
    · exact ih n ins h

theorem spanLoopRows_no_fix (rows : List TabRow) :
    ∀ (n : ℕ), ∀ ins ∈ (spanLoopRows n rows).1, isFixInstr ins = false := by
  induction rows with
  | nil => intro n ins h; simp [spanLoopRows] at h
  | cons row rest ih =>
    intro n ins h
    unfold spanLoopRows at h
    rcases e1 : spanLoopCells n row.cells with ⟨is1, n1, ok1⟩
    simp only [e1] at h
    cases ok1 with
    | false =>
      simp only at h
      exact spanLoopCells_no_fix row.cells n ins (by rw [e1]; exact h)
    | true =>
      rcases e2 : spanLoopRows n1 rest with ⟨is2, n2, ok2⟩
      simp only [e2] at h
      simp only [List.mem_append] at h
      rcases h with h | h
      · exact spanLoopCells_no_fix row.cells n ins (by rw [e1]; exact h)
      · exact ih n1 ins (by rw [e2]; exact h)

/-- C1: for every buffered table with `n ≤ 26` declared columns whose
rows cover the declared columns (with valid column letters and spans),
and none of whose measured (non-phantom) cells holds `\grmkpicture`
content — on such a cell the picture-size write raises `TypeError`
mid-pass-1 and no fix instruction is ever emitted — the
width-negotiation instructions emitted by `calc_latex_widths`
follow the fixed four-pass order: one `\grcolsfirstfix` per column,
then one `\grdividelength`, one `\grcolssecondfix` per column, one
`\grdividelength`, one `\grcolsthirdfix` per column, one
`\grdividelength`, and one `\grcolsfourthfix` per column. -/
theorem calc_latex_widths_four_passes (numcols : ℕ) (pw : ℚ) (tabmem : TabMem)
    (h26 : numcols ≤ 26)
    (hlen : ∀ row ∈ tabmem.rows, numcols ≤ row.cells.length)
    (hw : ∀ row ∈ tabmem.rows, ∀ cell ∈ row.cells,
      lcLetter cell.colchar ∧ cell.span ≤ 26)
    (hpic : ∀ row ∈ tabmem.rows, ∀ cell ∈ row.cells,
      cell.span ≠ 0 → cell.content.startsWith "\\grmkpicture" = false) :
    ((calc_latex_widths numcols pw tabmem).1).filter isFixInstr =
      (List.range numcols).map (fun i => Instr.firstfix (Char.ofNat (97 + i))) ++
      Instr.dividelength ::
        ((List.range numcols).map (fun i => Instr.secondfix (Char.ofNat (97 + i))) ++
      Instr.dividelength ::
        ((List.range numcols).map (fun i => Instr.thirdfix (Char.ofNat (97 + i))) ++
      Instr.dividelength ::
        (List.range numcols).map (fun i => Instr.fourthfix (Char.ofNat (97 + i))))) := by
  obtain ⟨hok, hchars, hfil⟩ := pass1Go_ok pw tabmem.rows hw hpic (List.range numcols)
    (fun c hc => by rw [List.mem_range] at hc; omega)
    (fun row hr c hc => by
      rw [List.mem_range] at hc
      have := hlen row hr
      omega)
  rcases e1 : pass1Go pw tabmem.rows (List.range numcols) with ⟨p1, chars, ok1⟩
  rw [e1] at hok hchars hfil
  simp only at hok hchars hfil
  subst hok
  rcases e2 : spanLoopRows 0 tabmem.rows with ⟨sp, n2, ok2⟩
  have hspfil : sp.filter isFixInstr = [] := by
    rw [List.filter_eq_nil_iff]
    intro a ha
    have := spanLoopRows_no_fix tabmem.rows 0 a (by rw [e2]; exact ha)
    simp [this]
  have hfix3 : ∀ (g : ℕ → Char) (mk : Char → Instr),
      (∀ c, isFixInstr (mk c) = true) →
      ∀ l : List ℕ, (l.map (mk ∘ g)).filter isFixInstr = l.map (mk ∘ g) := by
    intro g mk hmk l
    rw [List.filter_eq_self]
    intro a ha
    rw [List.mem_map] at ha
    obtain ⟨c, -, rfl⟩ := ha
    simp [hmk]
  unfold calc_latex_widths
  rw [e1, e2]
  simp only [List.filter_append, hfil, hspfil, List.append_nil, hchars,
    List.map_map, List.filter_cons]
  have hdiv : isFixInstr Instr.dividelength = true := rfl
  simp only [hdiv, if_true,
    hfix3 (fun i => Char.ofNat (97 + i)) Instr.secondfix (fun _ => rfl),
    hfix3 (fun i => Char.ofNat (97 + i)) Instr.thirdfix (fun _ => rfl),
    hfix3 (fun i => Char.ofNat (97 + i)) Instr.fourthfix (fun _ => rfl)]
  simp [List.filter_nil, List.append_assoc, Function.comp_def]

/-- Witness for C1: a concrete 2-column, 2-row table; the filtered
emission is exactly the four passes over columns `a`, `b`. -/
theorem calc_latex_widths_four_passes_witness :
    ((calc_latex_widths 2 0 ⟨"H", "T",
      [⟨[⟨'a', 1, "{l}", "A"⟩, ⟨'b', 1, "{l}", "B"⟩], "\\\\ ", ""⟩,
       ⟨[⟨'a', 1, "{l}", "C"⟩, ⟨'b', 1, "{l}", "D"⟩], "\\\\ ", ""⟩]⟩).1).filter
        isFixInstr =
      [Instr.firstfix 'a', Instr.firstfix 'b', Instr.dividelength,
       Instr.secondfix 'a', Instr.secondfix 'b', Instr.dividelength,
       Instr.thirdfix 'a', Instr.thirdfix 'b', Instr.dividelength,
       Instr.fourthfix 'a', Instr.fourthfix 'b'] := by
  have h := calc_latex_widths_four_passes 2 0 ⟨"H", "T",
      [⟨[⟨'a', 1, "{l}", "A"⟩, ⟨'b', 1, "{l}", "B"⟩], "\\\\ ", ""⟩,
       ⟨[⟨'a', 1, "{l}", "C"⟩, ⟨'b', 1, "{l}", "D"⟩], "\\\\ ", ""⟩]⟩
    (by decide) (by decide) (by decide) (by decide)
  rw [h]
  decide

-- ------------------------------------------------------------------
-- Router output discipline (C6) and phantom cells (C4)
-- ------------------------------------------------------------------

theorem repack_row_no_out (numcols : ℕ) (pw : ℚ) (tabrow : TabRow) :
    (repack_row numcols false pw tabrow).1 = [] := by
  unfold repack_row
  rcases e : tabrow.cells.getLast? with _ | lastc
  · rfl
  simp only [Bool.false_eq_true, false_and, ite_false, if_false]
  split
  · rfl
  · split <;> try rfl
    split <;> rfl

/-- C6 counterexample: the `TAB_BEG` table event itself produces
backend output — the single `\grinittab` initialization write — so it
is not the case that writes routed as table events produce no LaTeX
output before `TAB_END`. -/
theorem tab_beg_writes_counterexample :
    (handle_table sampleState "\\begin\x7blongtable\x7d[l]\x7b*\x7b2\x7d\x7bl\x7d\x7d\n"
      TabState.TAB_BEG 1).2 ≠ [] := by decide

/-- C6 (amended): cell and row events (`CELL_BEG`, `CELL_TEXT`,
`CELL_END`, `ROW_BEG`, and `ROW_END` outside multi-row-cell mode or
with no pending picture) produce no backend output; `TAB_BEG` emits
exactly the one initialization instruction; the buffered table's LaTeX
is emitted only when `TAB_END` arrives. -/
theorem table_events_no_output (s : RouterState) (text : String) (span : ℕ) :
    (handle_table s text TabState.CELL_BEG span).2 = [] ∧
    (handle_table s text TabState.CELL_TEXT span).2 = [] ∧
    (handle_table s text TabState.CELL_END span).2 = [] ∧
    (handle_table s text TabState.ROW_BEG span).2 = [] ∧
    (s.in_multrow_cell = false →
      (handle_table s text TabState.ROW_END span).2 = []) ∧
    (s.pict_in_table = false →
      (handle_table s text TabState.ROW_END span).2 = []) ∧
    (1 ≤ s.numcols → (handle_table s text TabState.TAB_BEG span).2 =
      [Instr.grinittab (1 / (s.numcols : ℚ))]) := by
  refine ⟨?_, rfl, rfl, rfl, ?_, ?_, ?_⟩
  · simp only [handle_table]
    rcases e : get_charform ((s.curcol : ℤ) - 1) with _ | cc
    · simp [e]
    · rcases e2 : phantomCells s.curcol span with _ | phs <;> simp [e, e2]
  · intro hm
    simp only [handle_table, hm]
    simp
  · intro hp
    simp only [handle_table, hp]
    by_cases hm : s.in_multrow_cell = true
    · rw [if_pos hm]
      rcases e : repack_row s.numcols false s.pict_width
          { s.tabrow with addit := text, tail := String.join s.textmem }
        with ⟨instrs, res⟩
      have hno : instrs = [] := by
        have h2 := repack_row_no_out s.numcols s.pict_width
          { s.tabrow with addit := text, tail := String.join s.textmem }
        rw [e] at h2
        exact h2
      cases res <;> simp [hno]
    · rw [if_neg hm]
  · intro hn
    simp only [handle_table]
    rw [if_neg (by omega)]

/-- Witness for C6 (amended): evaluated at the concrete fresh-table
state. -/
theorem table_events_no_output_witness :
    (handle_table sampleState "x" TabState.CELL_TEXT 1).2 = [] ∧
    (handle_table sampleState "" TabState.ROW_END 1).2 = [] ∧
    (handle_table sampleState "head" TabState.TAB_BEG 1).2 =
      [Instr.grinittab (1 / 2)] := by
  refine ⟨(table_events_no_output sampleState "x" 1).2.1, ?_, ?_⟩
  · exact (table_events_no_output sampleState "" 1).2.2.2.2.1 rfl
  · have h := (table_events_no_output sampleState "head" 1).2.2.2.2.2.2
      (by decide)
    rw [h]
    norm_num [sampleState]

/-- C4: a cell-begin event with span `s > 1` (routed through
`start_cell` with the column cursor at `curcol`) first appends exactly
`s − 1` phantom cells — span 0, for the columns the span consumes —
to the row, creates the real cell (span `s`) at column index
`curcol + s − 1` without appending it yet, and the following `CELL_END`
appends that real cell right after the phantoms. -/
theorem start_cell_phantoms (s : RouterState) (style : CellStyle) (span : ℕ)
    (h2 : 2 ≤ span) (hcol : s.curcol + span ≤ 26) :
    ∃ s1, (start_cell s style span).1 = some s1 ∧
      s1.tabrow.cells = s.tabrow.cells ++ (List.range (span - 1)).map (fun k =>
        TabCell.mk (Char.ofNat (97 + (s.curcol + k))) 0 "" "") ∧
      (∀ ph ∈ (List.range (span - 1)).map (fun k =>
        TabCell.mk (Char.ofNat (97 + (s.curcol + k))) 0 "" ""), ph.span = 0) ∧
      s1.tabcell.colchar = Char.ofNat (97 + (s.curcol + span - 1)) ∧
      s1.tabcell.span = span ∧ s1.tabcell.content = "" ∧
      (handle_table s1 "" TabState.CELL_END 1).1 = some { s1 with
        tabrow := { s1.tabrow with cells := s1.tabrow.cells ++ [s1.tabcell] }
        textmem := ([] : List String) } := by
  have hcc : get_charform ((↑(s.curcol + span) : ℤ) - 1) =
      some (Char.ofNat (97 + (s.curcol + span - 1))) := by
    have e : ((↑(s.curcol + span) : ℤ) - 1) = ((s.curcol + span - 1 : ℕ) : ℤ) := by
      push_cast
      omega
    rw [e]
    exact get_charform_lt _ (by omega)
  have hph : phantomCells (s.curcol + span) span =
      some ((List.range (span - 1)).map (fun k =>
        TabCell.mk (Char.ofNat (97 + (s.curcol + k))) 0 "" "")) := by
    unfold phantomCells
    rw [if_pos (by omega)]
    apply mapM_some_of_forall
    intro k hk
    rw [List.mem_range] at hk
    have harg : ((↑(s.curcol + span) : ℤ) - ↑span + ↑k) = ((s.curcol + k : ℕ) : ℤ) := by
      push_cast
      omega
    rw [harg, get_charform_lt _ (by omega)]
    rfl
  have hrun : (start_cell s style span).1 = some
      { { s with
            curcol := s.curcol + span
            doline := if style.bborder = true then true else s.doline
            skipfirst := if style.bborder = true then s.skipfirst
              else if s.curcol + span = 1 then true else s.skipfirst
            head_line := if style.tborder = true then true else s.head_line } with
        textmem := ([] : List String)
        curcol_char := Char.ofNat (97 + (s.curcol + span - 1))
        tabrow := { s.tabrow with cells := s.tabrow.cells ++
          (List.range (span - 1)).map (fun k =>
            TabCell.mk (Char.ofNat (97 + (s.curcol + k))) 0 "" "") }
        tabcell := TabCell.mk (Char.ofNat (97 + (s.curcol + span - 1))) span
          ("\\multicolumn\x7b" ++ toString span ++ "\x7d\x7b" ++
            cellfmtOf style ++ "\x7d") "" } := by
    simp only [start_cell, handle_table]
    rw [hcc, hph]
  refine ⟨_, hrun, rfl, ?_, rfl, rfl, rfl, rfl⟩
  intro ph hph2
  rw [List.mem_map] at hph2
  obtain ⟨k, -, rfl⟩ := hph2
  rfl

/-- Witness for C4: from a fresh row, one cell of span 3 ends up at
column index 2 (letter `c`), preceded by exactly the two phantom cells
of columns 0 (`a`) and 1 (`b`). -/
theorem start_cell_phantoms_witness :
    ∃ s1, (start_cell sampleState ⟨false, false, false, false⟩ 3).1 = some s1 ∧
      s1.tabrow.cells = [TabCell.mk 'a' 0 "" "", TabCell.mk 'b' 0 "" ""] ∧
      s1.tabcell.colchar = 'c' ∧ s1.tabcell.span = 3 := by
  obtain ⟨s1, h1, hcells, -, hchar, hspan, -, -⟩ :=
    start_cell_phantoms sampleState ⟨false, false, false, false⟩ 3
      (by decide) (by decide)
  refine ⟨s1, h1, ?_, ?_, hspan⟩
  · rw [hcells]
    decide
  · rw [hchar]
    decide

end Gramps

-- ------------------------------------------------------------------
-- Theorems for the TeX width-negotiation semantics (C2)
-- ------------------------------------------------------------------

namespace Gramps

theorem qset_getD_eq (l : List ℚ) (j : ℕ) (v : ℚ) (h : j < l.length) :
    (l.set j v).getD j 0 = v := by
  rw [List.getD_eq_getElem?_getD, List.getElem?_set_self, Option.getD_some]
  omega

theorem qset_getD_ne (l : List ℚ) (i j : ℕ) (v : ℚ) (h : i ≠ j) :
    (l.set i v).getD j 0 = l.getD j 0 := by
  rw [List.getD_eq_getElem?_getD, List.getElem?_set_ne h, List.getD_eq_getElem?_getD]

theorem texExec_cons (p : TexParams) (st : TexState) (i : Instr) (l : List Instr) :
    texExec p st (i :: l) = texExec p (texStep p st i) l := rfl

theorem texExec_append (p : TexParams) (st : TexState) (l1 l2 : List Instr) :
    texExec p st (l1 ++ l2) = texExec p (texExec p st l1) l2 :=
  List.foldl_append _ _ _ _

theorem texStep_wf (p : TexParams) (st : TexState) (i : Instr) (h : regsWF st) :
    regsWF (texStep p st i) := by
  obtain ⟨h1, h2⟩ := h
  cases i <;> simp only [texStep] <;> (repeat' split) <;>
    exact ⟨by simp only [List.length_set, h1], by simp only [List.length_set, h2]⟩

theorem texExec_wf (p : TexParams) (l : List Instr) :
    ∀ st, regsWF st → regsWF (texExec p st l) := by
  induction l with
  | nil => exact fun _ h => h
  | cons i l ih => exact fun st h => ih _ (texStep_wf p st i h)

theorem texStep_Q (p : TexParams) (st : TexState) (i : Instr) (h : qSafe i = true) :
    (texStep p st i).curcolend = st.curcolend ∧
      (texStep p st i).tabwidth = st.tabwidth := by
  cases i <;> first
    | (simp only [texStep] <;> (repeat' split) <;>
        first
          | exact ⟨by trivial, by trivial⟩
          | trivial)
    | simp [qSafe] at h

theorem texExec_Q (p : TexParams) (l : List Instr) (hl : ∀ i ∈ l, qSafe i = true) :
    ∀ st, (texExec p st l).curcolend = st.curcolend ∧
      (texExec p st l).tabwidth = st.tabwidth := by
  induction l with
  | nil => exact fun _ => ⟨rfl, rfl⟩
  | cons i l ih =>
    intro st
    have hstep := texStep_Q p st i (hl i (List.mem_cons_self _ _))
    have hrest := ih (fun a ha => hl a (List.mem_cons_of_mem _ ha))
      (texStep p st i)
    rw [texExec_cons]
    exact ⟨hrest.1.trans hstep.1, hrest.2.trans hstep.2⟩

theorem texStep_lists_const (p : TexParams) (st : TexState) (i : Instr)
    (h : isFixInstr i = false) :
    (texStep p st i).finalwidth = st.finalwidth ∧
      (texStep p st i).tempwidth = st.tempwidth := by
  cases i <;> first
    | (simp only [texStep] <;> (repeat' split) <;>
        first
          | exact ⟨by trivial, by trivial⟩
          | trivial)
    | simp [isFixInstr] at h

theorem texStep_div_lists (p : TexParams) (st : TexState) :
    (texStep p st Instr.dividelength).finalwidth = st.finalwidth ∧
      (texStep p st Instr.dividelength).tempwidth = st.tempwidth := by
  simp only [texStep]
  split <;> exact ⟨rfl, rfl⟩

theorem texStep_P (p : TexParams) (st : TexState) (i : Instr) (j : ℕ)
    (hw : regsWF st) (hj : j < 26) (hP : finZeroOrTemp j st) :
    finZeroOrTemp j (texStep p st i) := by
  obtain ⟨h1, h2⟩ := hw
  unfold finZeroOrTemp finEqTemp at *
  cases i with
  | firstfix c =>
    by_cases hcj : colIdx c = j
    · simp only [texStep]
      split
      · right
        rw [hcj, List.set_set, qset_getD_eq _ _ _ (by omega),
          qset_getD_eq _ _ _ (by omega)]
      · left
        rw [hcj, qset_getD_eq _ _ _ (by omega)]
    · simp only [texStep]
      split <;>
        rw [qset_getD_ne _ _ _ _ hcj, qset_getD_ne _ _ _ _ hcj] <;>
        first
          | exact hP
          | (rw [qset_getD_ne _ _ _ _ hcj]; exact hP)
  | secondfix c =>
    by_cases hcj : colIdx c = j
    · simp only [texStep]
      split
      · right
        rw [hcj, qset_getD_eq _ _ _ (by omega)]
      · split
        · exact hP
        · split
          · right
            rw [hcj, qset_getD_eq _ _ _ (by omega), qset_getD_eq _ _ _ (by omega)]
          · exact hP
    · simp only [texStep]
      split
      · rw [qset_getD_ne _ _ _ _ hcj]
        exact hP
      · split
        · exact hP
        · split
          · rw [qset_getD_ne _ _ _ _ hcj, qset_getD_ne _ _ _ _ hcj]
            exact hP
          · exact hP
  | thirdfix c =>
    by_cases hcj : colIdx c = j
    · simp only [texStep]
      split
      · exact hP
      · split
        · right
          rw [hcj, qset_getD_eq _ _ _ (by omega), qset_getD_eq _ _ _ (by omega)]
        · exact hP
    · simp only [texStep]
      split
      · exact hP
      · split
        · rw [qset_getD_ne _ _ _ _ hcj, qset_getD_ne _ _ _ _ hcj]
          exact hP
        · exact hP
  | fourthfix c =>
    by_cases hcj : colIdx c = j
    · simp only [texStep]
      split
      · exact hP
      · split
        · right
          rw [hcj, qset_getD_eq _ _ _ (by omega), qset_getD_eq _ _ _ (by omega)]
        · exact hP
    · simp only [texStep]
      split
      · exact hP
      · split
        · rw [qset_getD_ne _ _ _ _ hcj, qset_getD_ne _ _ _ _ hcj]
          exact hP
        · exact hP
  | dividelength =>
    obtain ⟨hf, ht⟩ := texStep_div_lists p st
    rw [hf, ht]
    exact hP
  | grinittab f =>
    exact hP
  | setpictsize w => exact hP
  | textneedwidth s => exact hP
  | setreqfull => exact hP
  | setreqpart c => exact hP
  | getspanwidth id cs ce => exact hP
  | addtotabwidth w => exact hP
  | text s => exact hP

theorem texExec_P (p : TexParams) (j : ℕ) (hj : j < 26) (l : List Instr) :
    ∀ st, regsWF st → finZeroOrTemp j st → finZeroOrTemp j (texExec p st l) := by
  induction l with
  | nil => exact fun _ _ h => h
  | cons i l ih =>
    intro st hw hP
    exact ih _ (texStep_wf p st i hw) (texStep_P p st i j hw hj hP)

theorem texStep_D (p : TexParams) (st : TexState) (i : Instr) (j : ℕ)
    (hf : isFirstFix i = false) (hw : regsWF st) (hj : j < 26)
    (hD : finEqTemp j st) : finEqTemp j (texStep p st i) := by
  obtain ⟨h1, h2⟩ := hw
  unfold finEqTemp at *
  cases i with
  | firstfix c => simp [isFirstFix] at hf
  | secondfix c =>
    by_cases hcj : colIdx c = j
    · simp only [texStep]
      split
      · rw [hcj, qset_getD_eq _ _ _ (by omega)]
      · split
        · exact hD
        · split
          · rw [hcj, qset_getD_eq _ _ _ (by omega), qset_getD_eq _ _ _ (by omega)]
          · exact hD
    · simp only [texStep]
      split
      · rw [qset_getD_ne _ _ _ _ hcj]
        exact hD
      · split
        · exact hD
        · split
          · rw [qset_getD_ne _ _ _ _ hcj, qset_getD_ne _ _ _ _ hcj]
            exact hD
          · exact hD
  | thirdfix c =>
    by_cases hcj : colIdx c = j
    · simp only [texStep]
      split
      · exact hD
      · split
        · rw [hcj, qset_getD_eq _ _ _ (by omega), qset_getD_eq _ _ _ (by omega)]
        · exact hD
    · simp only [texStep]
      split
      · exact hD
      · split
        · rw [qset_getD_ne _ _ _ _ hcj, qset_getD_ne _ _ _ _ hcj]
          exact hD
        · exact hD
  | fourthfix c =>
    by_cases hcj : colIdx c = j
    · simp only [texStep]
      split
      · exact hD
      · split
        · rw [hcj, qset_getD_eq _ _ _ (by omega), qset_getD_eq _ _ _ (by omega)]
        · exact hD
    · simp only [texStep]
      split
      · exact hD
      · split
        · rw [qset_getD_ne _ _ _ _ hcj, qset_getD_ne _ _ _ _ hcj]
          exact hD
        · exact hD
  | dividelength =>
    obtain ⟨hfi, ht⟩ := texStep_div_lists p st
    rw [hfi, ht]
    exact hD
  | grinittab f => exact hD
  | setpictsize w => exact hD
  | textneedwidth s => exact hD
  | setreqfull => exact hD
  | setreqpart c => exact hD
  | getspanwidth id cs ce => exact hD
  | addtotabwidth w => exact hD
  | text s => exact hD

theorem texExec_D (p : TexParams) (j : ℕ) (hj : j < 26) (l : List Instr)
    (hl : ∀ i ∈ l, isFirstFix i = false) :
    ∀ st, regsWF st → finEqTemp j st → finEqTemp j (texExec p st l) := by
  induction l with
  | nil => exact fun _ _ h => h
  | cons i l ih =>
    intro st hw hD
    exact ih (fun a ha => hl a (List.mem_cons_of_mem _ ha)) _
      (texStep_wf p st i hw)
      (texStep_D p st i j (hl i (List.mem_cons_self _ _)) hw hj hD)

theorem secondfix_pass_D (p : TexParams) (j : ℕ) (hj : j < 26) (cs : List Char) :
    ∀ st, regsWF st → st.curcolend < st.tabwidth → (∃ c ∈ cs, colIdx c = j) →
    finEqTemp j (texExec p st (cs.map Instr.secondfix)) := by
  induction cs with
  | nil =>
    rintro st - - ⟨c, hc, -⟩
    simp at hc
  | cons c0 rest ih =>
    rintro st hw hq ⟨c, hc, hcj⟩
    rw [List.map_cons, texExec_cons]
    rcases List.mem_cons.mp hc with rfl | hc2
    · have hD : finEqTemp j (texStep p st (Instr.secondfix c)) := by
        simp only [finEqTemp, texStep]
        rw [if_pos hq, hcj]
        exact qset_getD_eq _ _ _ (by rw [hw.1]; exact hj)
      exact texExec_D p j hj _ (by
          intro a ha
          rw [List.mem_map] at ha
          obtain ⟨d, -, rfl⟩ := ha
          rfl) _
        (texStep_wf p st _ hw) hD
    · have hstep := texStep_Q p st (Instr.secondfix c0) rfl
      exact ih _ (texStep_wf p st _ hw)
        (by rw [hstep.1, hstep.2]; exact hq) ⟨c, hc2, hcj⟩

theorem fourthfix_pass_D (p : TexParams) (j : ℕ) (hj : j < 26) (cs : List Char) :
    ∀ st, regsWF st → ¬(st.curcolend < st.tabwidth) → finZeroOrTemp j st →
    (∃ c ∈ cs, colIdx c = j) →
    finEqTemp j (texExec p st (cs.map Instr.fourthfix)) := by
  induction cs with
  | nil =>
    rintro st - - - ⟨c, hc, -⟩
    simp at hc
  | cons c0 rest ih =>
    rintro st hw hq hP ⟨c, hc, hcj⟩
    rw [List.map_cons, texExec_cons]
    rcases List.mem_cons.mp hc with rfl | hc2
    · have hD : finEqTemp j (texStep p st (Instr.fourthfix c)) := by
        simp only [finEqTemp, texStep]
        rw [if_neg hq]
        by_cases h0 : st.finalwidth.getD (colIdx c) 0 = 0
        · rw [if_pos h0, hcj]
          rw [qset_getD_eq _ _ _ (by rw [hw.1]; exact hj),
            qset_getD_eq _ _ _ (by rw [hw.2]; exact hj)]
        · rw [if_neg h0]
          rcases hP with hP0 | hPD
          · exact absurd (hcj ▸ hP0) h0
          · exact hPD
      exact texExec_D p j hj _ (by
          intro a ha
          rw [List.mem_map] at ha
          obtain ⟨d, -, rfl⟩ := ha
          rfl) _
        (texStep_wf p st _ hw) hD
    · have hstep := texStep_Q p st (Instr.fourthfix c0) rfl
      exact ih _ (texStep_wf p st _ hw)
        (by rw [hstep.1, hstep.2]; exact hq)
        (texStep_P p st _ j hw hj hP) ⟨c, hc2, hcj⟩

theorem initTexState_wf : regsWF initTexState := by
  constructor <;> simp [initTexState]

theorem initTexState_P (j : ℕ) : finZeroOrTemp j initTexState := by
  left
  rcases Nat.lt_or_ge j 26 with h | h
  · rw [show initTexState.finalwidth = List.replicate 26 0 from rfl,
      List.getD_eq_getElem?_getD, List.getElem?_replicate_of_lt h]
    rfl
  · rw [show initTexState.finalwidth = List.replicate 26 0 from rfl,
      List.getD_eq_getElem?_getD, List.getElem?_eq_none (by simp [h])]
    rfl

theorem colIdx_ofNat (j : ℕ) (h : j < 26) : colIdx (Char.ofNat (97 + j)) = j := by
  unfold colIdx get_numform
  rw [char_toNat_ofNat _ (by omega)]
  omega

theorem isFixInstr_false_not_first (i : Instr) (h : isFixInstr i = false) :
    isFirstFix i = false := by
  cases i <;> first
    | rfl
    | simp [isFixInstr] at h

theorem texExec_nil (p : TexParams) (st : TexState) : texExec p st [] = st := rfl

theorem passes_finalize (p : TexParams) (j : ℕ) (hj : j < 26)
    (chars : List Char) (sp : List Instr)
    (hsp : ∀ i ∈ sp, isFirstFix i = false)
    (hcm : ∃ c ∈ chars, colIdx c = j) (stA : TexState)
    (hwfA : regsWF stA) (hPA : finZeroOrTemp j stA) :
    finEqTemp j (texExec p (texExec p stA
      ([Instr.dividelength] ++ chars.map Instr.secondfix ++
       [Instr.dividelength] ++ chars.map Instr.thirdfix ++
       [Instr.dividelength] ++ chars.map Instr.fourthfix)) sp) := by
  have h2nd : ∀ i ∈ chars.map Instr.secondfix, isFirstFix i = false := by
    intro a ha
    rw [List.mem_map] at ha
    obtain ⟨c, -, rfl⟩ := ha
    rfl
  have h3rd : ∀ i ∈ chars.map Instr.thirdfix, isFirstFix i = false := by
    intro a ha
    rw [List.mem_map] at ha
    obtain ⟨c, -, rfl⟩ := ha
    rfl
  have h4th : ∀ i ∈ chars.map Instr.fourthfix, isFirstFix i = false := by
    intro a ha
    rw [List.mem_map] at ha
    obtain ⟨c, -, rfl⟩ := ha
    rfl
  have h2q : ∀ i ∈ chars.map Instr.secondfix, qSafe i = true := by
    intro a ha
    rw [List.mem_map] at ha
    obtain ⟨c, -, rfl⟩ := ha
    rfl
  have h3q : ∀ i ∈ chars.map Instr.thirdfix, qSafe i = true := by
    intro a ha
    rw [List.mem_map] at ha
    obtain ⟨c, -, rfl⟩ := ha
    rfl
  simp only [texExec_append, texExec_cons, texExec_nil]
  set s1 := texStep p stA Instr.dividelength with hs1
  set stB := texExec p s1 (chars.map Instr.secondfix) with hsB
  set s2 := texStep p stB Instr.dividelength with hs2
  set stC := texExec p s2 (chars.map Instr.thirdfix) with hsC
  set s3 := texStep p stC Instr.dividelength with hs3
  set stD := texExec p s3 (chars.map Instr.fourthfix) with hsD
  have hwf1 : regsWF s1 := texStep_wf p stA Instr.dividelength hwfA
  have hwfB : regsWF stB := texExec_wf p (chars.map Instr.secondfix) s1 hwf1
  have hwf2 : regsWF s2 := texStep_wf p stB Instr.dividelength hwfB
  have hwfC : regsWF stC := texExec_wf p (chars.map Instr.thirdfix) s2 hwf2
  have hwf3 : regsWF s3 := texStep_wf p stC Instr.dividelength hwfC
  have hwfD : regsWF stD := texExec_wf p (chars.map Instr.fourthfix) s3 hwf3
  by_cases hQ : stA.curcolend < stA.tabwidth
  · have hq1 := texStep_Q p stA Instr.dividelength rfl
    have hQ1 : s1.curcolend < s1.tabwidth := by
      rw [hs1, hq1.1, hq1.2]
      exact hQ
    have hDB : finEqTemp j stB := by
      rw [hsB]
      exact secondfix_pass_D p j hj chars s1 hwf1 hQ1 hcm
    have hD2 : finEqTemp j s2 := texStep_D p stB Instr.dividelength j rfl hwfB hj hDB
    have hDC : finEqTemp j stC :=
      texExec_D p j hj (chars.map Instr.thirdfix) h3rd s2 hwf2 hD2
    have hD3 : finEqTemp j s3 := texStep_D p stC Instr.dividelength j rfl hwfC hj hDC
    have hDD : finEqTemp j stD :=
      texExec_D p j hj (chars.map Instr.fourthfix) h4th s3 hwf3 hD3
    exact texExec_D p j hj sp hsp stD hwfD hDD
  · have e1q := texStep_Q p stA Instr.dividelength rfl
    have e2q := texExec_Q p (chars.map Instr.secondfix) h2q s1
    have e3q := texStep_Q p stB Instr.dividelength rfl
    have e4q := texExec_Q p (chars.map Instr.thirdfix) h3q s2
    have e5q := texStep_Q p stC Instr.dividelength rfl
    have hQ3 : ¬(s3.curcolend < s3.tabwidth) := by
      rw [hs3, e5q.1, e5q.2, hsC, e4q.1, e4q.2, hs2, e3q.1, e3q.2,
        hsB, e2q.1, e2q.2, hs1, e1q.1, e1q.2]
      exact hQ
    have hP1 : finZeroOrTemp j s1 :=
      texStep_P p stA Instr.dividelength j hwfA hj hPA
    have hPB : finZeroOrTemp j stB :=
      texExec_P p j hj (chars.map Instr.secondfix) s1 hwf1 hP1
    have hP2 : finZeroOrTemp j s2 :=
      texStep_P p stB Instr.dividelength j hwfB hj hPB
    have hPC : finZeroOrTemp j stC :=
      texExec_P p j hj (chars.map Instr.thirdfix) s2 hwf2 hP2
    have hP3 : finZeroOrTemp j s3 :=
      texStep_P p stC Instr.dividelength j hwfC hj hPC
    have hD4 : finEqTemp j stD := by
      rw [hsD]
      exact fourthfix_pass_D p j hj chars s3 hwf3 hQ3 hP3 hcm
    exact texExec_D p j hj sp hsp stD hwfD hD4

/-- C2 (amended): executing the emitted negotiation stream — the
`\grinittab` written at `TAB_BEG` followed by the measurement pass and
the three `\grdividelength`-led fix passes of `calc_latex_widths` —
leaves every declared column with its `\grfinalwidth` register equal to
its `\grtempwidth` register: the fourth pass unconditionally finalizes
any column whose final width is still unset at the current division
width `\grxwd`.  (The original claim is false: `\grcolsfourthfix`
neither decrements `grtofixcnt` nor keeps the finalized sum within
`\grtabwidth`; see the counterexample.  A table holding a measured
`\grmkpicture` cell is excluded: there `calc_latex_widths` raises
`TypeError` mid-pass-1 and the truncated stream leaves later columns
unfinalized.) -/
theorem width_negotiation_finalizes (p : TexParams) (numcols : ℕ) (pw : ℚ)
    (mem : TabMem) (h26 : numcols ≤ 26)
    (hlen : ∀ row ∈ mem.rows, numcols ≤ row.cells.length)
    (hwell : ∀ row ∈ mem.rows, ∀ cell ∈ row.cells,
      lcLetter cell.colchar ∧ cell.span ≤ 26)
    (hpic : ∀ row ∈ mem.rows, ∀ cell ∈ row.cells,
      cell.span ≠ 0 → cell.content.startsWith "\\grmkpicture" = false)
    (j : ℕ) (hj : j < numcols) :
    finEqTemp j (texExec p initTexState (negotiationStream numcols pw mem)) := by
  have hj26 : j < 26 := lt_of_lt_of_le hj h26
  have hok := pass1Go_ok pw mem.rows hwell hpic (List.range numcols)
    (fun c hc => by rw [List.mem_range] at hc; omega)
    (fun row hr c hc => by
      rw [List.mem_range] at hc
      exact lt_of_lt_of_le hc (hlen row hr))
  rcases e1 : pass1Go pw mem.rows (List.range numcols) with ⟨p1, chars, ok1⟩
  rw [e1] at hok
  obtain ⟨hok1, hchars, -⟩ := hok
  simp only at hok1 hchars
  subst hok1
  rcases e2 : spanLoopRows 0 mem.rows with ⟨sp, n2, ok2⟩
  have hcalc : (calc_latex_widths numcols pw mem).1 =
      p1 ++ ([Instr.dividelength] ++ chars.map Instr.secondfix ++
        [Instr.dividelength] ++ chars.map Instr.thirdfix ++
        [Instr.dividelength] ++ chars.map Instr.fourthfix) ++ sp := by
    simp only [calc_latex_widths, e1, e2]
  have hsp : ∀ i ∈ sp, isFirstFix i = false := by
    intro a ha
    exact isFixInstr_false_not_first a
      (spanLoopRows_no_fix mem.rows 0 a (by rw [e2]; exact ha))
  have hcm : ∃ c ∈ chars, colIdx c = j := by
    refine ⟨Char.ofNat (97 + j), ?_, colIdx_ofNat j hj26⟩
    rw [hchars]
    exact List.mem_map.mpr ⟨j, List.mem_range.mpr hj, rfl⟩
  unfold negotiationStream
  rw [hcalc, texExec_cons, texExec_append, texExec_append]
  exact passes_finalize p j hj26 chars sp hsp hcm _
    (texExec_wf p p1 _ (texStep_wf p initTexState _ initTexState_wf))
    (texExec_P p j hj26 p1 _ (texStep_wf p initTexState _ initTexState_wf)
      (texStep_P p initTexState _ j initTexState_wf hj26 (initTexState_P j)))

/-- Witness for C2 (amended): on the seven-column example, column 0
indeed ends with equal final and temp width registers. -/
theorem width_negotiation_finalizes_witness :
    finEqTemp 0 (texExec sevenColParams initTexState
      (negotiationStream 7 0 sevenColMem)) :=
  width_negotiation_finalizes sevenColParams 7 0 sevenColMem
    (by decide) (by decide) (by decide) (by decide) 0 (by decide)

set_option maxRecDepth 20000 in
theorem sevenColInstrs : (calc_latex_widths 7 0 sevenColMem).1 =
    [Instr.textneedwidth "t", Instr.setreqfull, Instr.firstfix 'a',
     Instr.textneedwidth "t", Instr.setreqfull, Instr.firstfix 'b',
     Instr.textneedwidth "t", Instr.setreqfull, Instr.firstfix 'c',
     Instr.textneedwidth "t", Instr.setreqfull, Instr.firstfix 'd',
     Instr.textneedwidth "t", Instr.setreqfull, Instr.firstfix 'e',
     Instr.textneedwidth "t", Instr.setreqfull, Instr.firstfix 'f',
     Instr.textneedwidth "t", Instr.setreqfull, Instr.firstfix 'g',
     Instr.dividelength,
     Instr.secondfix 'a', Instr.secondfix 'b', Instr.secondfix 'c',
     Instr.secondfix 'd', Instr.secondfix 'e', Instr.secondfix 'f',
     Instr.secondfix 'g',
     Instr.dividelength,
     Instr.thirdfix 'a', Instr.thirdfix 'b', Instr.thirdfix 'c',
     Instr.thirdfix 'd', Instr.thirdfix 'e', Instr.thirdfix 'f',
     Instr.thirdfix 'g',
     Instr.dividelength,
     Instr.fourthfix 'a', Instr.fourthfix 'b', Instr.fourthfix 'c',
     Instr.fourthfix 'd', Instr.fourthfix 'e', Instr.fourthfix 'f',
     Instr.fourthfix 'g'] := by
  decide

set_option maxRecDepth 100000 in
set_option maxHeartbeats 2000000 in
/-- C2 counterexample: on the seven-column table (one row, every cell
one text of measured width 2000, `\textwidth` 7000, `\tabcolsep` 0),
after the four emitted passes the finalized widths sum to 7·1001 = 7007
> 7000 and `grtofixcnt` is 7, not 0: `\grcolsfourthfix` finalizes the
seven columns at `0.143·\grtempwd = 1001` each without ever
decrementing the counter, so neither conjunct of the claimed invariant
holds. -/
theorem width_negotiation_counterexample :
    ¬(sumFinal sevenColRun 7 + 7 * (2 * sevenColParams.tabcolsep) ≤
        sevenColRun.tabwidth ∧
      sevenColRun.tofixcnt = 0) := by
  have hca : colIdx 'a' = 0 := by decide
  have hcb : colIdx 'b' = 1 := by decide
  have hcc : colIdx 'c' = 2 := by decide
  have hcd : colIdx 'd' = 3 := by decide
  have hce : colIdx 'e' = 4 := by decide
  have hcf : colIdx 'f' = 5 := by decide
  have hcg : colIdx 'g' = 6 := by decide
  have hrep : List.replicate 26 (0 : ℚ) =
      [0, 0, 0, 0, 0, 0, 0, 0, 0, 0, 0, 0, 0,
       0, 0, 0, 0, 0, 0, 0, 0, 0, 0, 0, 0, 0] := by decide
  have hr7 : List.range 7 = [0, 1, 2, 3, 4, 5, 6] := by decide
  rw [show sevenColRun = texExec sevenColParams initTexState
    (negotiationStream 7 0 sevenColMem) from rfl]
  rw [show negotiationStream 7 0 sevenColMem =
    Instr.grinittab (1 / ((7 : ℕ) : ℚ)) ::
      (calc_latex_widths 7 0 sevenColMem).1 from rfl]
  rw [sevenColInstrs]
  norm_num [texExec, List.foldl, texStep, initTexState, sevenColParams, maxQ,
    grxwdOf, sumFinal, hca, hcb, hcc, hcd, hce, hcf, hcg, hrep, hr7,
    List.set, List.getD, List.get?]

end Gramps
